import Mathlib

/-!
# Rulegopher: a shallow embedding of the rule engine

This file embeds the core of the `rulegopher` rule engine (packages
`pkg/rules` and `pkg/engine`) in Lean 4 and proves properties of the
embedding.

Modelling conventions:
* Go `float64` values are modelled as exact rationals (`ℚ`); the epsilon
  comparison logic of the source is preserved verbatim.
* Go's dynamically typed `interface{}` fact values are modelled by the
  tagged union `Value` (number, string, boolean, string slice), mirroring
  the dynamic type switches of the source.
* Go maps are modelled as functions into `Option`/`List`; the iteration
  order of a Go map over an input fact is modelled by the order of the
  association list representing the fact.
* Fallible Go functions returning `(..., error)` are modelled with
  `Except`; the distinct error constructors mirror the distinct error
  values of the source.
-/

namespace Rulegopher

/-- A dynamically typed value: models Go `interface{}` restricted to the
types the engine actually inspects (`int`, `float64`, `string`, `[]string`,
`bool`).  `float64` is modelled as an exact rational. -/
inductive Value where
  | int (n : Int)
  | float (q : ℚ)
  | str (s : String)
  | strList (l : List String)
  | bool (b : Bool)
deriving DecidableEq, Repr

/-- A fact: Go's `type Fact map[string]interface{}`, modelled as an
association list whose order stands for the (unspecified) map iteration
order. -/
abbrev Fact := List (String × Value)

/-- Lookup of `fact[name]` (first binding wins; a Go map has unique keys). -/
def factLookup : Fact → String → Option Value
  | [], _ => none
  | (k, v) :: rest, key => if k = key then some v else factLookup rest key

/-- The sign prefix accepted by `strconv.ParseFloat`: returns
(isNegative, remaining input). -/
def parseSign : List Char → Bool × List Char
  | '-' :: cs => (true, cs)
  | '+' :: cs => (false, cs)
  | cs => (false, cs)

/-- Longest prefix of decimal digits, together with the rest. -/
def takeDigits : List Char → List Char × List Char
  | [] => ([], [])
  | c :: cs =>
    if c.isDigit then
      let p := takeDigits cs
      (c :: p.1, p.2)
    else ([], c :: cs)

/-- Digit list to natural number (most significant first). -/
def digitsToNat : List Char → Nat → Nat
  | [], acc => acc
  | c :: cs, acc => digitsToNat cs (acc * 10 + (c.toNat - 48))

/-- Exponent suffix (`e±ddd`) of a float literal; `some 0` on empty input,
`none` if the remaining input is not a valid exponent suffix. -/
def parseExp : List Char → Option Int
  | [] => some 0
  | c :: cs =>
    if c = 'e' ∨ c = 'E' then
      let sgn := parseSign cs
      let p := takeDigits sgn.2
      if p.1 = [] ∨ p.2 ≠ [] then none
      else
        let n : Int := (digitsToNat p.1 0 : Int)
        some (if sgn.1 then -n else n)
    else none

/-- Models `strconv.ParseFloat(s, 64)` on decimal literals
(`[+-]ddd[.ddd][e[+-]ddd]`): the numeric strings the engine's coercion
accepts.  The result is the exactly represented rational. -/
def parseFloat? (s : String) : Option ℚ :=
  let sgn := parseSign s.data
  let ip := takeDigits sgn.2
  let fp : List Char × List Char :=
    match ip.2 with
    | '.' :: cs => takeDigits cs
    | cs => ([], cs)
  if ip.1 = [] ∧ fp.1 = [] then none
  else
    match parseExp fp.2 with
    | none => none
    | some e =>
      let mant : ℚ :=
        (digitsToNat ip.1 0 : ℚ) + (digitsToNat fp.1 0 : ℚ) / ((10 : ℚ) ^ fp.1.length)
      let mag : ℚ := mant * (10 : ℚ) ^ e
      some (if sgn.1 then -mag else mag)

/-- `convertToFloat64` of `pkg/rules`: accepts `int`, `float64` and numeric
strings; everything else is a conversion error (`none`). -/
def convertToFloat64 : Value → Option ℚ
  | .int n => some (n : ℚ)
  | .float q => some q
  | .str s => parseFloat? s
  | _ => none

/-- The `epsilon` constant of `pkg/rules` (`1e-9`). -/
def epsilon : ℚ := 1 / 1000000000

/-- `almostEqual` of `pkg/rules`: absolute difference within `epsilon`, or
relative error within `epsilon` of the larger magnitude. -/
def almostEqual (a b : ℚ) : Bool :=
  let diff := |a - b|
  if diff ≤ epsilon then true
  else decide (diff ≤ epsilon * max |a| |b|)

/-- Membership of a string in a string slice: the `contains` helper of
`pkg/rules`. -/
def contains : List String → String → Bool
  | [], _ => false
  | s :: rest, str => if s = str then true else contains rest str

/-- Substring test on character lists (the loop of `strings.Contains`). -/
def strContainsAux (t : List Char) : List Char → Bool
  | [] => t.isEmpty
  | c :: cs => t.isPrefixOf (c :: cs) || strContainsAux t cs

/-- `strings.Contains s t`: `t` occurs as a contiguous substring of `s`. -/
def strContains (s t : String) : Bool :=
  strContainsAux t.data s.data

/-- The `validOperators` allow-list of `pkg/rules`. -/
def validOperators : List String :=
  ["equal", "notEqual", "greaterThan", "greaterThanOrEqual",
   "lessThan", "lessThanOrEqual", "contains", "notContains"]

/-- The engine's unmatched-fact policy (`Ignore` / `Log` / `Error`). -/
inductive UnmatchedPolicy where
  | ignore
  | log
  | error
deriving DecidableEq, Repr

/-- The distinct error values produced during condition evaluation. -/
inductive EvalError where
  | invalidOperator (op : String)
  | factNotFound (factName : String)
  | factValueCoercion (v : Value)
  | conditionValueCoercion (v : Value)
deriving DecidableEq, Repr

/-- Decidable equality for `Except` results (not provided by the core
library). -/
instance {ε α : Type} [DecidableEq ε] [DecidableEq α] : DecidableEq (Except ε α) :=
  fun a b =>
    match a, b with
    | .ok x, .ok y =>
      if h : x = y then isTrue (by rw [h])
      else isFalse (by intro hh; injection hh; contradiction)
    | .ok _, .error _ => isFalse (fun hh => Except.noConfusion hh)
    | .error _, .ok _ => isFalse (fun hh => Except.noConfusion hh)
    | .error x, .error y =>
      if h : x = y then isTrue (by rw [h])
      else isFalse (by intro hh; injection hh; contradiction)

/-- Result quadruple `(satisfied, facts, values, error)` of condition
evaluation. -/
abbrev EvalResult := Except EvalError (Bool × List String × List Value)

/-- A condition node (`pkg/rules` `Condition`): leaf fields `fact`,
`operator`, `value` plus nested `all`/`any` children. -/
inductive Condition where
  | mk (fact : String) (operator : String) (value : Value)
      (all : List Condition) (any : List Condition)

mutual

/-- Decidable equality of conditions (not derivable for this nested
inductive in this Lean version, so spelled out). -/
def Condition.decEq : (a b : Condition) → Decidable (a = b)
  | .mk f1 o1 v1 al1 an1, .mk f2 o2 v2 al2 an2 =>
    if hf : f1 = f2 then
      if ho : o1 = o2 then
        if hv : v1 = v2 then
          match Condition.decEqList al1 al2 with
          | isTrue hal =>
            match Condition.decEqList an1 an2 with
            | isTrue han => isTrue (by rw [hf, ho, hv, hal, han])
            | isFalse han =>
              isFalse (by intro h; injection h with h1 h2 h3 h4 h5; exact han h5)
          | isFalse hal =>
            isFalse (by intro h; injection h with h1 h2 h3 h4 h5; exact hal h4)
        else isFalse (by intro h; injection h with h1 h2 h3 h4 h5; exact hv h3)
      else isFalse (by intro h; injection h with h1 h2 h3 h4 h5; exact ho h2)
    else isFalse (by intro h; injection h with h1 h2 h3 h4 h5; exact hf h1)

/-- Decidable equality of condition lists. -/
def Condition.decEqList : (as bs : List Condition) → Decidable (as = bs)
  | [], [] => isTrue rfl
  | [], _ :: _ => isFalse (by simp)
  | _ :: _, [] => isFalse (by simp)
  | a :: as, b :: bs =>
    match Condition.decEq a b with
    | isTrue h1 =>
      match Condition.decEqList as bs with
      | isTrue h2 => isTrue (by rw [h1, h2])
      | isFalse h2 => isFalse (by intro h; injection h with hh ht; exact h2 ht)
    | isFalse h1 => isFalse (by intro h; injection h with hh ht; exact h1 hh)

end

instance : DecidableEq Condition := Condition.decEq

def Condition.fact : Condition → String
  | .mk f _ _ _ _ => f

def Condition.operator : Condition → String
  | .mk _ o _ _ _ => o

def Condition.value : Condition → Value
  | .mk _ _ v _ _ => v

def Condition.all : Condition → List Condition
  | .mk _ _ _ a _ => a

def Condition.any : Condition → List Condition
  | .mk _ _ _ _ a => a

/-- `evaluateNestedConditions` of `pkg/rules`: the `all` group first, then
the `any` group; satisfied as soon as either group reports satisfied.  The
two arguments are the results of `evaluateConditions` on the condition's
`all` and `any` children (passing the recursive results keeps the mutual
recursion structural; evaluation is pure, so the computed value is the
same as in the source, which short-circuits the second call). -/
def evaluateNestedConditions (allRes anyRes : EvalResult) : EvalResult :=
  match allRes with
  | .error e => .error e
  | .ok (true, fs, vs) => .ok (true, fs, vs)
  | .ok (false, _, _) =>
    match anyRes with
    | .error e => .error e
    | .ok (true, fs, vs) => .ok (true, fs, vs)
    | .ok (false, _, _) => .ok (false, [], [])

/-- `evaluateSimpleCondition` of `pkg/rules`, translated branch by branch.
`fa`/`op`/`v`/`all`/`any` are the fields of the receiver condition;
`allRes`/`anyRes` are the results of `evaluateConditions` on `all`/`any`,
used only by the trailing nested-condition branches of the source (dead
code on every call from `Condition.Evaluate`, which dispatches nodes with
children to `evaluateNestedConditions`; translated nonetheless).

The missing-fact branch dispatches on the unmatched-fact policy.
Modelled from the spec: the policy dispatch (the three-argument
`Condition.Evaluate` revision exercised by the test suite) is not among the
source files; per spec §4.1, policy `Ignore` returns `(false, nil, nil,
nil)`, `Error` returns an error identifying the missing fact, and `Log`
behaves as `Ignore` (logging is an external collaborator).  Under policy
`.ignore` this definition coincides exactly with the source file's
(policy-free) `evaluateSimpleCondition`, whose missing-fact branch
unconditionally returns `(false, nil, nil, nil)`. -/
def evaluateSimpleCondition (pol : UnmatchedPolicy) (fa op : String) (v : Value)
    (all any : List Condition) (allRes anyRes : EvalResult) (f : Fact) : EvalResult :=
  if ¬ (validOperators.contains op) then .error (.invalidOperator op)
  else if fa ≠ "" ∧ op ≠ "" then
    match factLookup f fa with
    | none =>
      match pol with
      | .ignore => .ok (false, [], [])
      | .log => .ok (false, [], [])
      | .error => .error (.factNotFound fa)
    | some factValue =>
      if op = "equal" then
        if factValue = v then .ok (true, [fa], [factValue]) else .ok (false, [], [])
      else if op = "notEqual" then
        if factValue ≠ v then .ok (true, [fa], [factValue]) else .ok (false, [], [])
      else if op = "greaterThan" ∨ op = "greaterThanOrEqual" ∨
          op = "lessThan" ∨ op = "lessThanOrEqual" then
        match convertToFloat64 factValue, convertToFloat64 v with
        | none, _ => .error (.factValueCoercion factValue)
        | some _, none => .error (.conditionValueCoercion v)
        | some factFloat, some valueFloat =>
          if op = "greaterThan" then
            if factFloat > valueFloat + epsilon then .ok (true, [fa], [factValue])
            else .ok (false, [], [])
          else if op = "greaterThanOrEqual" then
            if almostEqual factFloat valueFloat || factFloat > valueFloat then
              .ok (true, [fa], [factValue])
            else .ok (false, [], [])
          else if op = "lessThan" then
            if factFloat < valueFloat - epsilon then .ok (true, [fa], [factValue])
            else .ok (false, [], [])
          else
            if almostEqual factFloat valueFloat || factFloat < valueFloat then
              .ok (true, [fa], [factValue])
            else .ok (false, [], [])
      else if op = "contains" then
        let valueStr := match v with | .str s => s | _ => ""
        let ok2 := match v with | .str _ => true | _ => false
        match factValue with
        | .str factStr =>
          if ok2 && strContains factStr valueStr then .ok (true, [fa], [factValue])
          else .ok (false, [], [])
        | .strList factSlice =>
          if contains factSlice valueStr then .ok (true, [fa], [factValue])
          else .ok (false, [], [])
        | _ => .ok (false, [], [])
      else
        let valueStr := match v with | .str s => s | _ => ""
        let ok2 := match v with | .str _ => true | _ => false
        match factValue with
        | .str factStr =>
          if ok2 && !(strContains factStr valueStr) then .ok (true, [fa], [factValue])
          else .ok (false, [], [])
        | .strList factSlice =>
          if !(contains factSlice valueStr) then .ok (true, [fa], [factValue])
          else .ok (false, [], [])
        | _ => .ok (false, [], [])
  else
    if all.length > 0 then
      match allRes with
      | .error e => .error e
      | .ok (true, fs, vs) => .ok (true, fs, vs)
      | .ok (false, _, _) =>
        if any.length > 0 then
          match anyRes with
          | .error e => .error e
          | .ok (true, fs, vs) => .ok (true, fs, vs)
          | .ok (false, _, _) => .ok (false, [], [])
        else .ok (false, [], [])
    else if any.length > 0 then
      match anyRes with
      | .error e => .error e
      | .ok (true, fs, vs) => .ok (true, fs, vs)
      | .ok (false, _, _) => .ok (false, [], [])
    else .ok (false, [], [])

mutual

/-- `Condition.Evaluate` of `pkg/rules`: dispatches to the nested-conditions
evaluator when `all` or `any` children exist, else to the simple (leaf)
evaluator.  The `pol` parameter is the engine's unmatched-fact policy; see
`evaluateSimpleCondition` for its (spec-modelled) use. -/
def Condition.evaluate (pol : UnmatchedPolicy) : Condition → Fact → EvalResult
  | .mk fa op v all any, f =>
    if all.length > 0 || any.length > 0 then
      evaluateNestedConditions
        (evaluateConditions pol all f) (evaluateConditions pol any f)
    else
      evaluateSimpleCondition pol fa op v all any
        (evaluateConditions pol all f) (evaluateConditions pol any f) f

/-- `evaluateConditions` of `pkg/rules`: walks the list and returns
satisfied (with that condition's facts/values) as soon as ONE condition is
satisfied; an error aborts; reaching the end yields unsatisfied. -/
def evaluateConditions (pol : UnmatchedPolicy) : List Condition → Fact → EvalResult
  | [], _ => .ok (false, [], [])
  | c :: rest, f =>
    match Condition.evaluate pol c f with
    | .error e => .error e
    | .ok (true, fs, vs) => .ok (true, fs, vs)
    | .ok (false, _, _) => evaluateConditions pol rest f

end

/-- An event (`pkg/rules` `Event`). -/
structure Event where
  eventType : String
  customProperty : Value
  facts : List String
  values : List Value
  ruleName : String
deriving DecidableEq, Repr

/-- The root conditions block of a rule.  The `all`/`any` slices are
`Option (List Condition)` so that a Go `nil` slice (`none`) is
distinguished from an empty non-nil slice (`some []`), as
`Engine.validateRule` checks `== nil` while every other consumer only
looks at length/iteration (where `nil` behaves as the empty list). -/
structure Conditions where
  all : Option (List Condition)
  any : Option (List Condition)
deriving DecidableEq

/-- The `all` slice as iterated/measured by the source (a `nil` slice
ranges and measures like an empty one). -/
def Conditions.allList (c : Conditions) : List Condition := c.all.getD []

/-- The `any` slice as iterated/measured by the source. -/
def Conditions.anyList (c : Conditions) : List Condition := c.any.getD []

/-- A rule (`pkg/rules` `Rule`). -/
structure Rule where
  name : String
  priority : Int
  conditions : Conditions
  event : Event
deriving DecidableEq

/-- The loop body of `Rule.Validate` over one condition list: skip nodes
with nested children, otherwise reject the first operator missing from the
allow-list. -/
def validateConditionList : List Condition → Option String
  | [] => none
  | .mk _ op _ all any :: rest =>
    if all.length > 0 || any.length > 0 then validateConditionList rest
    else if validOperators.contains op then validateConditionList rest
    else some op

/-- `Rule.Validate` of `pkg/rules`: checks the top-level `all` then `any`
lists; returns the first invalid operator (as the payload of the
`invalid operator` error), or `none` when the rule validates. -/
def Rule.validate (r : Rule) : Option String :=
  match validateConditionList r.conditions.allList with
  | some op => some op
  | none => validateConditionList r.conditions.anyList

/-- `Rule.Evaluate` of `pkg/rules`.  Returns the satisfaction verdict
together with the (possibly mutated) rule: the source mutates the
receiver's event template in place when `includeTriggeringFact` is set, so
the returned `Rule` is the receiver's state after the call. -/
def Rule.evaluate (pol : UnmatchedPolicy) (r : Rule) (f : Fact)
    (includeTriggeringFact : Bool) : Except EvalError (Bool × Rule) :=
  match evaluateConditions pol r.conditions.allList f with
  | .error e => .error e
  | .ok (allSatisfied, facts1, values1) =>
    if ¬ allSatisfied ∧ r.conditions.allList.length > 0 then .ok (false, r)
    else
      let r1 :=
        if allSatisfied ∧ includeTriggeringFact then
          { r with event :=
              { r.event with
                  facts := r.event.facts ++ facts1
                  values := r.event.values ++ values1 } }
        else r
      match evaluateConditions pol r.conditions.anyList f with
      | .error e => .error e
      | .ok (anySatisfied, facts2, values2) =>
        if anySatisfied then
          let r2 :=
            if includeTriggeringFact then
              { r1 with event :=
                  { r1.event with
                      facts := r1.event.facts ++ facts2
                      values := r1.event.values ++ values2 } }
            else r1
          .ok (true, r2)
        else
          .ok (r.conditions.anyList.length = 0 ∧ allSatisfied, r1)

/-- The distinct error values returned by the engine's mutating operations
(`pkg/engine`): the typed errors of `errors.go` together with the formatted
errors of `validateRule`. -/
inductive EngineError where
  | emptyRuleName
  | nilRuleConditions (ruleName : String)
  | invalidOperator (op : String)
  | ruleAlreadyExists (ruleName : String)
  | ruleDoesNotExist (ruleName : String)
  | invalidRule (ruleName : String)
deriving DecidableEq, Repr

/-- The engine state (`pkg/engine` `Engine`): the rule table and the rule
index are Go maps, modelled as functions (total, with `none`/`[]` for
absent keys).  The mutex only orders concurrent accesses and has no
sequential content. -/
structure Engine where
  rules : String → Option Rule
  ruleIndex : String → List Rule
  reportFacts : Bool
  reportRuleName : Bool
  unmatchedFactBehavior : UnmatchedPolicy

/-- `NewEngine` of `pkg/engine`. -/
def newEngine : Engine :=
  { rules := fun _ => none
    ruleIndex := fun _ => []
    reportFacts := false
    reportRuleName := false
    unmatchedFactBehavior := .ignore }

/-- `Engine.validateRule`: empty name, then nil conditions, then the rule's
own operator validation. -/
def validateRule (r : Rule) : Option EngineError :=
  if r.name = "" then some .emptyRuleName
  else if r.conditions.all = none ∧ r.conditions.any = none then
    some (.nilRuleConditions r.name)
  else
    match r.validate with
    | some op => some (.invalidOperator op)
    | none => none

/-- `Engine.ruleExists`. -/
def ruleExists (e : Engine) (ruleName : String) : Bool :=
  (e.rules ruleName).isSome

/-- `Engine.addRuleToEngine`: store the rule in the rule table. -/
def addRuleToEngine (e : Engine) (r : Rule) : Engine :=
  { e with rules := fun k => if k = r.name then some r else e.rules k }

/-- The loop of Go's `sort.Search` (binary search): narrows `[i, j)` to the
smallest index at which `f` holds (under the monotonicity assumption
`sort.Search` documents).  The first argument is structural fuel bounding
the number of iterations; `sortSearch` supplies `n`, which always
suffices, as each iteration shrinks `j - i`. -/
def sortSearchAux (f : Nat → Bool) : Nat → Nat → Nat → Nat
  | 0, i, _ => i
  | fuel + 1, i, j =>
    if i < j then
      let m := (i + j) / 2
      if f m then sortSearchAux f fuel i m else sortSearchAux f fuel (m + 1) j
    else i

/-- `sort.Search n f`. -/
def sortSearch (n : Nat) (f : Nat → Bool) : Nat :=
  sortSearchAux f n 0 n

/-- `Engine.insertRuleIntoIndex`: binary-search the insertion position
(first entry with strictly greater priority) and splice the rule in. -/
def insertRuleIntoIndex (e : Engine) (fact : String) (r : Rule) : Engine :=
  let existingRules := e.ruleIndex fact
  let insertionIndex := sortSearch existingRules.length
    (fun i =>
      match existingRules.get? i with
      | some ru => decide (ru.priority > r.priority)
      | none => false)
  let newRules :=
    existingRules.take insertionIndex ++ r :: existingRules.drop insertionIndex
  { e with ruleIndex := fun k => if k = fact then newRules else e.ruleIndex k }

mutual

/-- The body of the `Engine.processConditions` loop for one condition:
register the rule under the condition's fact name, then recurse into its
`all` and `any` children. -/
def processCondition : Condition → Rule → Engine → Engine
  | .mk fa _ _ all any, r, e =>
    let e1 := insertRuleIntoIndex e fa r
    let e2 := if all.length > 0 then processConditions all r e1 else e1
    if any.length > 0 then processConditions any r e2 else e2

/-- `Engine.processConditions`: register the rule under every (recursively
reachable) condition's fact name, in source order. -/
def processConditions : List Condition → Rule → Engine → Engine
  | [], _, e => e
  | c :: rest, r, e => processConditions rest r (processCondition c r e)

end

/-- `Engine.addToIndex`: the top-level `all` conditions first, then the
top-level `any` conditions. -/
def addToIndex (e : Engine) (r : Rule) : Engine :=
  processConditions r.conditions.anyList r
    (processConditions r.conditions.allList r e)

/-- `Engine.AddRule`: validate, reject duplicates, then store and index.
Returns the engine state after the call together with the error, if any. -/
def addRule (e : Engine) (r : Rule) : Engine × Option EngineError :=
  match validateRule r with
  | some err => (e, some err)
  | none =>
    if ruleExists e r.name then (e, some (.ruleAlreadyExists r.name))
    else (addToIndex (addRuleToEngine e r) r, none)

/-- The inner loop of `Engine.removeFromIndex` on one bucket: remove the
first entry whose name matches, then `break`. -/
def removeFirstByName (ruleName : String) : List Rule → List Rule
  | [] => []
  | r :: rest =>
    if r.name = ruleName then rest else r :: removeFirstByName ruleName rest

/-- `Engine.removeFromIndex`: every bucket loses (at most) its first entry
matching the rule name. -/
def removeFromIndex (e : Engine) (ruleName : String) : Engine :=
  { e with ruleIndex := fun k => removeFirstByName ruleName (e.ruleIndex k) }

/-- `Engine.RemoveRule`: reject unknown names, else delete from the table
and from the index. -/
def removeRule (e : Engine) (ruleName : String) : Engine × Option EngineError :=
  if (e.rules ruleName).isNone then (e, some (.ruleDoesNotExist ruleName))
  else
    let e1 := { e with rules := fun k => if k = ruleName then none else e.rules k }
    (removeFromIndex e1 ruleName, none)

/-- `Engine.UpdateRule`: validate the new rule, reject unknown names, then
re-index.  Note the table entry stays keyed by the OLD name, as in the
source. -/
def updateRule (e : Engine) (ruleName : String) (newRule : Rule) :
    Engine × Option EngineError :=
  match newRule.validate with
  | some _ => (e, some (.invalidRule newRule.name))
  | none =>
    if (e.rules ruleName).isNone then (e, some (.ruleDoesNotExist ruleName))
    else
      let e1 := removeFromIndex e ruleName
      let e2 := { e1 with rules := fun k => if k = ruleName then some newRule else e1.rules k }
      (addToIndex e2 newRule, none)

/-- The `matchingRules` slice built by `Engine.Evaluate`: concatenation of
the index buckets of the input fact's keys, in map-iteration order (the
order of the association list). -/
def matchingRules (e : Engine) (f : Fact) : List Rule :=
  f.foldl (fun acc kv => acc ++ e.ruleIndex kv.1) []

/-- The loop state of `Engine.Evaluate`: generated events, collected
per-rule errors (the `multierror` aggregate, which is nil iff the list is
empty) and the `evaluatedRules` name set.  `trace` is a ghost observation
recording, in order, each invocation of `Rule.Evaluate` together with the
event that invocation emitted (if any); it does not influence the other
fields. -/
structure EvalLoopState where
  events : List Event
  errs : List EvalError
  evaluated : List String
  trace : List (Rule × Option Event)

/-- The loop state at entry of `Engine.Evaluate`. -/
def initialLoopState : EvalLoopState := ⟨[], [], [], []⟩

/-- The event `Engine.Evaluate` emits for a satisfied rule copy: the copy's
event template, stamped with the copy's rule name when the engine's
`ReportRuleName` option is set. -/
def stampEvent (rn : Bool) (ruleCopy : Rule) : Event :=
  if rn then { ruleCopy.event with ruleName := ruleCopy.name } else ruleCopy.event

/-- One iteration of the `Engine.Evaluate` loop over a candidate rule:
skip already-evaluated names; on error collect it and continue WITHOUT
marking the name; otherwise emit the (possibly stamped) event when
satisfied and mark the name. -/
def evalStep (pol : UnmatchedPolicy) (rf rn : Bool) (f : Fact)
    (s : EvalLoopState) (r : Rule) : EvalLoopState :=
  if r.name ∈ s.evaluated then s
  else
    match Rule.evaluate pol r f rf with
    | .error e =>
      { s with errs := s.errs ++ [e], trace := s.trace ++ [(r, none)] }
    | .ok (satisfied, ruleCopy) =>
      let ev := stampEvent rn ruleCopy
      if satisfied then
        { s with
            events := s.events ++ [ev]
            evaluated := s.evaluated ++ [r.name]
            trace := s.trace ++ [(r, some ev)] }
      else
        { s with
            evaluated := s.evaluated ++ [r.name]
            trace := s.trace ++ [(r, none)] }

/-- The candidate loop of `Engine.Evaluate`. -/
def evalLoop (pol : UnmatchedPolicy) (rf rn : Bool) (f : Fact) :
    List Rule → EvalLoopState → EvalLoopState
  | [], s => s
  | r :: rest, s => evalLoop pol rf rn f rest (evalStep pol rf rn f s r)

/-- `Engine.Evaluate`: evaluate each not-yet-evaluated candidate on a
private copy, collect events and errors.  The first component is the
engine state after the call (the source never writes to the table or the
index here; the returned state records that).  The unmatched-fact policy
is threaded to the condition evaluator (see `evaluateSimpleCondition` for
the spec-modelled part of that dispatch). -/
def Engine.evaluate (e : Engine) (f : Fact) :
    Engine × List Event × List EvalError :=
  let s := evalLoop e.unmatchedFactBehavior e.reportFacts e.reportRuleName f
    (matchingRules e f) initialLoopState
  (e, s.events, s.errs)

/-- Ghost observation of `Engine.Evaluate`: the sequence of rules on which
`Rule.Evaluate` was invoked during the call, each paired with the event
that invocation emitted, if any. -/
def Engine.evaluateTrace (e : Engine) (f : Fact) : List (Rule × Option Event) :=
  (evalLoop e.unmatchedFactBehavior e.reportFacts e.reportRuleName f
    (matchingRules e f) initialLoopState).trace

/-! ## General lemmas about the evaluation loop -/

theorem evalStep_skip (pol : UnmatchedPolicy) (rf rn : Bool) (f : Fact)
    (s : EvalLoopState) (r : Rule) (hc : r.name ∈ s.evaluated) :
    evalStep pol rf rn f s r = s := by
  simp [evalStep, hc]

theorem evalStep_error (pol : UnmatchedPolicy) (rf rn : Bool) (f : Fact)
    (s : EvalLoopState) (r : Rule) (e : EvalError) (hc : r.name ∉ s.evaluated)
    (hEval : Rule.evaluate pol r f rf = .error e) :
    evalStep pol rf rn f s r
      = { s with errs := s.errs ++ [e], trace := s.trace ++ [(r, none)] } := by
  simp [evalStep, hc, hEval]

theorem evalStep_ok_true (pol : UnmatchedPolicy) (rf rn : Bool) (f : Fact)
    (s : EvalLoopState) (r rc : Rule) (hc : r.name ∉ s.evaluated)
    (hEval : Rule.evaluate pol r f rf = .ok (true, rc)) :
    evalStep pol rf rn f s r
      = { s with
            events := s.events ++ [stampEvent rn rc]
            evaluated := s.evaluated ++ [r.name]
            trace := s.trace ++ [(r, some (stampEvent rn rc))] } := by
  simp [evalStep, hc, hEval]

theorem evalStep_ok_false (pol : UnmatchedPolicy) (rf rn : Bool) (f : Fact)
    (s : EvalLoopState) (r rc : Rule) (hc : r.name ∉ s.evaluated)
    (hEval : Rule.evaluate pol r f rf = .ok (false, rc)) :
    evalStep pol rf rn f s r
      = { s with
            evaluated := s.evaluated ++ [r.name]
            trace := s.trace ++ [(r, none)] } := by
  simp [evalStep, hc, hEval]

theorem evalStep_events_append (pol : UnmatchedPolicy) (rf rn : Bool) (f : Fact)
    (s : EvalLoopState) (r : Rule) :
    ∃ u, (evalStep pol rf rn f s r).events = s.events ++ u := by
  unfold evalStep
  by_cases h : r.name ∈ s.evaluated
  · exact ⟨[], by simp [h]⟩
  · rcases hEval : Rule.evaluate pol r f rf with e | ⟨sat, rc⟩
    · exact ⟨[], by simp [h, hEval]⟩
    · cases sat
      · exact ⟨[], by simp [h, hEval]⟩
      · exact ⟨[stampEvent rn rc], by simp [h, hEval]⟩

theorem evalStep_errs_append (pol : UnmatchedPolicy) (rf rn : Bool) (f : Fact)
    (s : EvalLoopState) (r : Rule) :
    ∃ u, (evalStep pol rf rn f s r).errs = s.errs ++ u := by
  unfold evalStep
  by_cases h : r.name ∈ s.evaluated
  · exact ⟨[], by simp [h]⟩
  · rcases hEval : Rule.evaluate pol r f rf with e | ⟨sat, rc⟩
    · exact ⟨[e], by simp [h, hEval]⟩
    · cases sat
      · exact ⟨[], by simp [h, hEval]⟩
      · exact ⟨[], by simp [h, hEval]⟩

theorem evalLoop_events_append (pol : UnmatchedPolicy) (rf rn : Bool) (f : Fact)
    (cands : List Rule) (s : EvalLoopState) :
    ∃ u, (evalLoop pol rf rn f cands s).events = s.events ++ u := by
  induction cands generalizing s with
  | nil => exact ⟨[], by simp [evalLoop]⟩
  | cons c rest ih =>
    obtain ⟨u1, hu1⟩ := evalStep_events_append pol rf rn f s c
    obtain ⟨u2, hu2⟩ := ih (evalStep pol rf rn f s c)
    exact ⟨u1 ++ u2, by simp [evalLoop, hu2, hu1]⟩

theorem evalLoop_errs_append (pol : UnmatchedPolicy) (rf rn : Bool) (f : Fact)
    (cands : List Rule) (s : EvalLoopState) :
    ∃ u, (evalLoop pol rf rn f cands s).errs = s.errs ++ u := by
  induction cands generalizing s with
  | nil => exact ⟨[], by simp [evalLoop]⟩
  | cons c rest ih =>
    obtain ⟨u1, hu1⟩ := evalStep_errs_append pol rf rn f s c
    obtain ⟨u2, hu2⟩ := ih (evalStep pol rf rn f s c)
    exact ⟨u1 ++ u2, by simp [evalLoop, hu2, hu1]⟩

theorem evalStep_evaluated_mono (pol : UnmatchedPolicy) (rf rn : Bool) (f : Fact)
    (s : EvalLoopState) (r : Rule) (n : String) (h : n ∈ s.evaluated) :
    n ∈ (evalStep pol rf rn f s r).evaluated := by
  unfold evalStep
  by_cases hc : r.name ∈ s.evaluated
  · simpa [hc]
  · rcases hEval : Rule.evaluate pol r f rf with e | ⟨sat, rc⟩
    · simpa [hc, hEval]
    · cases sat
      · simp [hc, hEval, h]
      · simp [hc, hEval, h]

/-- Once a rule name is in the evaluated set, no later candidate with that
name is invoked: the trace gains no entry carrying that name. -/
theorem evalLoop_marked_no_invoke (pol : UnmatchedPolicy) (rf rn : Bool) (f : Fact)
    (cands : List Rule) (s : EvalLoopState) (n : String) (h : n ∈ s.evaluated) :
    ((evalLoop pol rf rn f cands s).trace.filter (fun p => p.1.name = n)).length
      = (s.trace.filter (fun p => p.1.name = n)).length := by
  induction cands generalizing s with
  | nil => simp [evalLoop]
  | cons c rest ih =>
    rw [evalLoop]
    rw [ih (evalStep pol rf rn f s c) (evalStep_evaluated_mono pol rf rn f s c n h)]
    unfold evalStep
    by_cases hc : c.name ∈ s.evaluated
    · simp [hc]
    · have hcn : ¬ (c.name = n) := fun hEq => hc (hEq ▸ h)
      rcases hEval : Rule.evaluate pol c f rf with e | ⟨sat, rc⟩
      · simp [hc, hEval, hcn]
      · cases sat <;> simp [hc, hEval, hcn]

/-- The events field always equals the emitted events recorded in the
trace: each loop step appends an event to `events` exactly when it appends
a `(rule, some event)` entry to `trace`. -/
theorem evalLoop_events_eq_trace (pol : UnmatchedPolicy) (rf rn : Bool) (f : Fact)
    (cands : List Rule) (s : EvalLoopState)
    (h : s.events = s.trace.filterMap (fun p => p.2)) :
    (evalLoop pol rf rn f cands s).events
      = (evalLoop pol rf rn f cands s).trace.filterMap (fun p => p.2) := by
  induction cands generalizing s with
  | nil => simpa [evalLoop]
  | cons c rest ih =>
    rw [evalLoop]
    apply ih
    unfold evalStep
    by_cases hc : c.name ∈ s.evaluated
    · simpa [hc]
    · rcases hEval : Rule.evaluate pol c f rf with e | ⟨sat, rc⟩
      · simp [hc, hEval, h]
      · cases sat <;> simp [hc, hEval, h]

/-- The rules recorded in the trace extend the entry trace by a sublist of
the candidate list (in candidate order: a candidate is invoked at most
once, in place). -/
theorem evalLoop_trace_sublist (pol : UnmatchedPolicy) (rf rn : Bool) (f : Fact)
    (cands : List Rule) (s : EvalLoopState) :
    ∃ t, (evalLoop pol rf rn f cands s).trace = s.trace ++ t
      ∧ (t.map (fun p => p.1)).Sublist cands := by
  induction cands generalizing s with
  | nil => exact ⟨[], by simp [evalLoop], by simp⟩
  | cons c rest ih =>
    rw [evalLoop]
    by_cases hc : c.name ∈ s.evaluated
    · rw [evalStep_skip pol rf rn f s c hc]
      obtain ⟨t, ht, hsub⟩ := ih s
      exact ⟨t, ht, hsub.cons c⟩
    · rcases hEval : Rule.evaluate pol c f rf with e | ⟨sat, rc⟩
      · rw [evalStep_error pol rf rn f s c e hc hEval]
        obtain ⟨t, ht, hsub⟩ := ih _
        refine ⟨(c, none) :: t, ?_, by simpa using hsub.cons₂ c⟩
        rw [ht]; simp
      · cases sat
        · rw [evalStep_ok_false pol rf rn f s c rc hc hEval]
          obtain ⟨t, ht, hsub⟩ := ih _
          refine ⟨(c, none) :: t, ?_, by simpa using hsub.cons₂ c⟩
          rw [ht]; simp
        · rw [evalStep_ok_true pol rf rn f s c rc hc hEval]
          obtain ⟨t, ht, hsub⟩ := ih _
          refine ⟨(c, some (stampEvent rn rc)) :: t, ?_, by simpa using hsub.cons₂ c⟩
          rw [ht]; simp

/-- A candidate whose evaluation is satisfied (no error) contributes its
stamped event to the returned events, provided no other distinct candidate
shares its name and its name is not yet marked. -/
theorem evalLoop_mem_events (pol : UnmatchedPolicy) (rf rn : Bool) (f : Fact)
    (cands : List Rule) (s : EvalLoopState) (r rc : Rule)
    (hmem : r ∈ cands)
    (hinj : ∀ r2 ∈ cands, r2.name = r.name → r2 = r)
    (hEval : Rule.evaluate pol r f rf = .ok (true, rc))
    (hnm : r.name ∉ s.evaluated) :
    stampEvent rn rc ∈ (evalLoop pol rf rn f cands s).events := by
  induction cands generalizing s with
  | nil => cases hmem
  | cons c rest ih =>
    rw [evalLoop]
    by_cases hcr : c = r
    · subst hcr
      rw [evalStep_ok_true pol rf rn f s c rc hnm hEval]
      obtain ⟨u, hu⟩ := evalLoop_events_append pol rf rn f rest _
      rw [hu]; simp
    · have hmem' : r ∈ rest := by
        rcases List.mem_cons.mp hmem with h | h
        · exact absurd h.symm hcr
        · exact h
      have hcn : c.name ≠ r.name := fun hEq => hcr (hinj c (List.mem_cons_self c rest) hEq)
      have hinj' : ∀ r2 ∈ rest, r2.name = r.name → r2 = r :=
        fun r2 h2 => hinj r2 (List.mem_cons_of_mem c h2)
      by_cases hc : c.name ∈ s.evaluated
      · rw [evalStep_skip pol rf rn f s c hc]
        exact ih s hmem' hinj' hnm
      · rcases hEval2 : Rule.evaluate pol c f rf with e | ⟨sat, rc2⟩
        · rw [evalStep_error pol rf rn f s c e hc hEval2]
          exact ih _ hmem' hinj' hnm
        · cases sat
          · rw [evalStep_ok_false pol rf rn f s c rc2 hc hEval2]
            apply ih _ hmem' hinj'
            simp only [List.mem_append, List.mem_singleton]
            rintro (h | h)
            · exact hnm h
            · exact hcn h.symm
          · rw [evalStep_ok_true pol rf rn f s c rc2 hc hEval2]
            apply ih _ hmem' hinj'
            simp only [List.mem_append, List.mem_singleton]
            rintro (h | h)
            · exact hnm h
            · exact hcn h.symm

/-- A candidate whose evaluation errors contributes its error to the
collected error list, provided no other distinct candidate shares its name
and its name is not yet marked. -/
theorem evalLoop_mem_errs (pol : UnmatchedPolicy) (rf rn : Bool) (f : Fact)
    (cands : List Rule) (s : EvalLoopState) (r : Rule) (err : EvalError)
    (hmem : r ∈ cands)
    (hinj : ∀ r2 ∈ cands, r2.name = r.name → r2 = r)
    (hEval : Rule.evaluate pol r f rf = .error err)
    (hnm : r.name ∉ s.evaluated) :
    err ∈ (evalLoop pol rf rn f cands s).errs := by
  induction cands generalizing s with
  | nil => cases hmem
  | cons c rest ih =>
    rw [evalLoop]
    by_cases hcr : c = r
    · subst hcr
      rw [evalStep_error pol rf rn f s c err hnm hEval]
      obtain ⟨u, hu⟩ := evalLoop_errs_append pol rf rn f rest _
      rw [hu]; simp
    · have hmem' : r ∈ rest := by
        rcases List.mem_cons.mp hmem with h | h
        · exact absurd h.symm hcr
        · exact h
      have hcn : c.name ≠ r.name := fun hEq => hcr (hinj c (List.mem_cons_self c rest) hEq)
      have hinj' : ∀ r2 ∈ rest, r2.name = r.name → r2 = r :=
        fun r2 h2 => hinj r2 (List.mem_cons_of_mem c h2)
      by_cases hc : c.name ∈ s.evaluated
      · rw [evalStep_skip pol rf rn f s c hc]
        exact ih s hmem' hinj' hnm
      · rcases hEval2 : Rule.evaluate pol c f rf with e | ⟨sat, rc2⟩
        · rw [evalStep_error pol rf rn f s c e hc hEval2]
          exact ih _ hmem' hinj' hnm
        · cases sat
          · rw [evalStep_ok_false pol rf rn f s c rc2 hc hEval2]
            apply ih _ hmem' hinj'
            simp only [List.mem_append, List.mem_singleton]
            rintro (h | h)
            · exact hnm h
            · exact hcn h.symm
          · rw [evalStep_ok_true pol rf rn f s c rc2 hc hEval2]
            apply ih _ hmem' hinj'
            simp only [List.mem_append, List.mem_singleton]
            rintro (h | h)
            · exact hnm h
            · exact hcn h.symm

/-- A candidate whose evaluation returns without error is invoked exactly
once (its first occurrence marks the name, every later occurrence is
skipped), provided no other distinct candidate shares its name. -/
theorem evalLoop_invoked_once (pol : UnmatchedPolicy) (rf rn : Bool) (f : Fact)
    (cands : List Rule) (s : EvalLoopState) (r rc : Rule) (sat : Bool)
    (hmem : r ∈ cands)
    (hinj : ∀ r2 ∈ cands, r2.name = r.name → r2 = r)
    (hEval : Rule.evaluate pol r f rf = .ok (sat, rc))
    (hnm : r.name ∉ s.evaluated)
    (h0 : (s.trace.filter (fun p => p.1.name = r.name)).length = 0) :
    ((evalLoop pol rf rn f cands s).trace.filter
      (fun p => p.1.name = r.name)).length = 1 := by
  induction cands generalizing s with
  | nil => cases hmem
  | cons c rest ih =>
    rw [evalLoop]
    by_cases hcr : c = r
    · subst hcr
      cases sat
      · rw [evalStep_ok_false pol rf rn f s c rc hnm hEval]
        rw [evalLoop_marked_no_invoke pol rf rn f rest _ c.name (by simp)]
        simp [List.filter_append, h0]
      · rw [evalStep_ok_true pol rf rn f s c rc hnm hEval]
        rw [evalLoop_marked_no_invoke pol rf rn f rest _ c.name (by simp)]
        simp [List.filter_append, h0]
    · have hmem' : r ∈ rest := by
        rcases List.mem_cons.mp hmem with h | h
        · exact absurd h.symm hcr
        · exact h
      have hcn : c.name ≠ r.name := fun hEq => hcr (hinj c (List.mem_cons_self c rest) hEq)
      have hinj' : ∀ r2 ∈ rest, r2.name = r.name → r2 = r :=
        fun r2 h2 => hinj r2 (List.mem_cons_of_mem c h2)
      by_cases hc : c.name ∈ s.evaluated
      · rw [evalStep_skip pol rf rn f s c hc]
        exact ih s hmem' hinj' hnm h0
      · rcases hEval2 : Rule.evaluate pol c f rf with e | ⟨sat2, rc2⟩
        · rw [evalStep_error pol rf rn f s c e hc hEval2]
          apply ih _ hmem' hinj'
          · exact hnm
          · simp [List.filter_append, h0, hcn]
        · cases sat2
          · rw [evalStep_ok_false pol rf rn f s c rc2 hc hEval2]
            apply ih _ hmem' hinj'
            · simp only [List.mem_append, List.mem_singleton]
              rintro (h | h)
              · exact hnm h
              · exact hcn h.symm
            · simp [List.filter_append, h0, hcn]
          · rw [evalStep_ok_true pol rf rn f s c rc2 hc hEval2]
            apply ih _ hmem' hinj'
            · simp only [List.mem_append, List.mem_singleton]
              rintro (h | h)
              · exact hnm h
              · exact hcn h.symm
            · simp [List.filter_append, h0, hcn]

/-- Over a whole run, at most one trace entry per rule name carries an
emitted event: emission marks the name, and marked names are never invoked
again. -/
theorem evalLoop_emit_le_one (pol : UnmatchedPolicy) (rf rn : Bool) (f : Fact)
    (cands : List Rule) (n : String) (s : EvalLoopState)
    (hinv1 : ((s.trace.filter (fun p => decide (p.1.name = n) && p.2.isSome)).length ≤ 1))
    (hinv2 : n ∉ s.evaluated →
      (s.trace.filter (fun p => decide (p.1.name = n) && p.2.isSome)).length = 0) :
    ((evalLoop pol rf rn f cands s).trace.filter
      (fun p => decide (p.1.name = n) && p.2.isSome)).length ≤ 1 := by
  induction cands generalizing s with
  | nil => simpa [evalLoop]
  | cons c rest ih =>
    rw [evalLoop]
    by_cases hc : c.name ∈ s.evaluated
    · rw [evalStep_skip pol rf rn f s c hc]
      exact ih s hinv1 hinv2
    · rcases hEval2 : Rule.evaluate pol c f rf with e | ⟨sat2, rc2⟩
      · rw [evalStep_error pol rf rn f s c e hc hEval2]
        apply ih
        · simpa [List.filter_append] using hinv1
        · intro hn
          simpa [List.filter_append] using hinv2 hn
      · cases sat2
        · rw [evalStep_ok_false pol rf rn f s c rc2 hc hEval2]
          apply ih
          · simpa [List.filter_append] using hinv1
          · intro hn
            simp only [List.mem_append, List.mem_singleton, not_or] at hn
            simpa [List.filter_append] using hinv2 hn.1
        · rw [evalStep_ok_true pol rf rn f s c rc2 hc hEval2]
          by_cases hcn : c.name = n
          · subst hcn
            apply ih
            · have h0 := hinv2 hc
              simp [List.filter_append, h0]
            · intro hn
              simp at hn
          · apply ih
            · simpa [List.filter_append, hcn] using hinv1
            · intro hn
              simp only [List.mem_append, List.mem_singleton, not_or] at hn
              simpa [List.filter_append, hcn] using hinv2 hn.1

/-- Evaluating a leaf condition (no children) goes through
`evaluateSimpleCondition`, whose nested-condition tail receives the
(empty-group) results. -/
theorem Condition.evaluate_leaf (pol : UnmatchedPolicy) (fa op : String)
    (v : Value) (f : Fact) :
    Condition.evaluate pol (.mk fa op v [] []) f
      = evaluateSimpleCondition pol fa op v [] []
          (.ok (false, [], [])) (.ok (false, [], [])) f := by
  simp [Condition.evaluate, evaluateConditions]

/-! ## Claim theorems -/

/-- Claim C10: for a leaf condition with operator `contains` or
`notContains`, when the named fact is present but its value is neither a
string nor a slice of strings, both operators evaluate to unsatisfied with
no error — so on such values `notContains` is not the logical negation of
`contains`. -/
theorem c10_contains_non_string_unsatisfied
    (pol : UnmatchedPolicy) (fa : String) (v0 cv : Value) (f : Fact)
    (hfa : fa ≠ "")
    (hlk : factLookup f fa = some v0)
    (hv0 : match v0 with | .str _ => False | .strList _ => False | _ => True) :
    Condition.evaluate pol (.mk fa "contains" cv [] []) f = .ok (false, [], [])
    ∧ Condition.evaluate pol (.mk fa "notContains" cv [] []) f = .ok (false, [], []) := by
  cases v0 with
  | str s => exact hv0.elim
  | strList l => exact hv0.elim
  | int n =>
    constructor <;>
      simp [Condition.evaluate_leaf, evaluateSimpleCondition, validOperators, hfa, hlk]
  | float q =>
    constructor <;>
      simp [Condition.evaluate_leaf, evaluateSimpleCondition, validOperators, hfa, hlk]
  | bool b =>
    constructor <;>
      simp [Condition.evaluate_leaf, evaluateSimpleCondition, validOperators, hfa, hlk]

/-- Witness for C10 at a concrete input: fact value `5` (an int). -/
theorem c10_contains_non_string_unsatisfied_witness :
    Condition.evaluate .ignore (.mk "t" "contains" (.str "x") [] [])
        [("t", .int 5)] = .ok (false, [], [])
    ∧ Condition.evaluate .ignore (.mk "t" "notContains" (.str "x") [] [])
        [("t", .int 5)] = .ok (false, [], []) :=
  c10_contains_non_string_unsatisfied .ignore "t" (.int 5) (.str "x")
    [("t", .int 5)] (by decide) (by decide) trivial

/-- Claim C2: for a leaf condition (valid operator, non-empty fact name)
whose fact name is absent from the input fact: under policy `Ignore` (and
`Log`) the condition evaluates to unsatisfied with no error; under policy
`Error` it evaluates to an error identifying the missing fact.  A rule
whose conditions consist of that leaf is reported unsatisfied without
error under `Ignore`, while under `Error` its evaluation errors and
`Engine.Evaluate` collects that error (identifying the missing fact) for
the rule. -/
theorem c2_missing_fact_policy
    (fa op : String) (v : Value) (f : Fact) (r : Rule) (e : Engine) (rf : Bool)
    (hop : validOperators.contains op)
    (hfa : fa ≠ "")
    (hlk : factLookup f fa = none)
    (hall : r.conditions.all = some [.mk fa op v [] []])
    (hany : r.conditions.any = none)
    (hmem : r ∈ matchingRules e f)
    (hinj : ∀ r2 ∈ matchingRules e f, r2.name = r.name → r2 = r)
    (hpol : e.unmatchedFactBehavior = .error) :
    Condition.evaluate .ignore (.mk fa op v [] []) f = .ok (false, [], [])
    ∧ Condition.evaluate .log (.mk fa op v [] []) f = .ok (false, [], [])
    ∧ Condition.evaluate .error (.mk fa op v [] []) f = .error (.factNotFound fa)
    ∧ Rule.evaluate .ignore r f rf = .ok (false, r)
    ∧ Rule.evaluate .error r f rf = .error (.factNotFound fa)
    ∧ EvalError.factNotFound fa ∈ (e.evaluate f).2.2 := by
  have hop' : op ≠ "" := by
    intro hEq
    subst hEq
    simp [validOperators] at hop
  have hop2 : op ∈ validOperators := by simpa using hop
  have hIgnore : Condition.evaluate .ignore (.mk fa op v [] []) f = .ok (false, [], []) := by
    simp [Condition.evaluate_leaf, evaluateSimpleCondition, hop2, hfa, hop', hlk]
  have hLog : Condition.evaluate .log (.mk fa op v [] []) f = .ok (false, [], []) := by
    simp [Condition.evaluate_leaf, evaluateSimpleCondition, hop2, hfa, hop', hlk]
  have hError : Condition.evaluate .error (.mk fa op v [] []) f
      = .error (.factNotFound fa) := by
    simp [Condition.evaluate_leaf, evaluateSimpleCondition, hop2, hfa, hop', hlk]
  have hRuleIgnore : ∀ rf' : Bool, Rule.evaluate .ignore r f rf' = .ok (false, r) := by
    intro rf'
    simp [Rule.evaluate, Conditions.allList, Conditions.anyList, hall, hany,
      evaluateConditions, hIgnore]
  have hRuleError : ∀ rf' : Bool, Rule.evaluate .error r f rf' = .error (.factNotFound fa) := by
    intro rf'
    simp [Rule.evaluate, Conditions.allList, Conditions.anyList, hall, hany,
      evaluateConditions, hError]
  refine ⟨hIgnore, hLog, hError, hRuleIgnore rf, hRuleError rf, ?_⟩
  have := evalLoop_mem_errs e.unmatchedFactBehavior e.reportFacts e.reportRuleName f
    (matchingRules e f) initialLoopState r (.factNotFound fa) hmem hinj
    (by rw [hpol]; exact hRuleError e.reportFacts) (by simp [initialLoopState])
  simpa [Engine.evaluate] using this

/-- Witness for C2 at a concrete input: leaf on fact `people`, input fact
containing only `temperature`; the engine (policy `Error`) holds the rule
in the `temperature` index bucket, so it is a candidate while `people` is
missing. -/
theorem c2_missing_fact_policy_witness :
    (Condition.evaluate .ignore (.mk "people" "greaterThan" (.int 3) [] [])
        [("temperature", .int 30)] = .ok (false, [], []))
    ∧ EvalError.factNotFound "people" ∈
        (({ rules := fun _ => none
            ruleIndex := fun k => if k = "temperature" then
              [{ name := "R", priority := 1,
                 conditions := { all := some [.mk "people" "greaterThan" (.int 3) [] []],
                                 any := none },
                 event := { eventType := "E", customProperty := .str "",
                            facts := [], values := [], ruleName := "" } }] else []
            reportFacts := false
            reportRuleName := false
            unmatchedFactBehavior := .error } : Engine).evaluate
          [("temperature", .int 30)]).2.2 := by
  have h := c2_missing_fact_policy "people" "greaterThan" (.int 3)
    [("temperature", .int 30)]
    { name := "R", priority := 1,
      conditions := { all := some [.mk "people" "greaterThan" (.int 3) [] []],
                      any := none },
      event := { eventType := "E", customProperty := .str "",
                 facts := [], values := [], ruleName := "" } }
    { rules := fun _ => none
      ruleIndex := fun k => if k = "temperature" then
        [{ name := "R", priority := 1,
           conditions := { all := some [.mk "people" "greaterThan" (.int 3) [] []],
                           any := none },
           event := { eventType := "E", customProperty := .str "",
                      facts := [], values := [], ruleName := "" } }] else []
      reportFacts := false
      reportRuleName := false
      unmatchedFactBehavior := .error }
    false (by decide) (by decide) (by decide) rfl rfl (by decide)
    (by decide) rfl
  exact ⟨h.1, h.2.2.2.2.2⟩

/-- The failing input of C1: a rule whose root `all` list holds two leaves,
of which the fact satisfies only the first. -/
def c1Rule : Rule :=
  { name := "R", priority := 1,
    conditions :=
      { all := some [.mk "a" "equal" (.int 1) [] [], .mk "b" "equal" (.int 2) [] []],
        any := none },
    event := { eventType := "E", customProperty := .str "x",
               facts := [], values := [], ruleName := "" } }

/-- The fact of the C1 failing input: satisfies `a equal 1`, violates
`b equal 2`. -/
def c1Fact : Fact := [("a", .int 1), ("b", .int 3)]

/-- The engine of the C1 failing input, holding only `c1Rule`. -/
def c1Engine : Engine := (addRule newEngine c1Rule).1

/-- Claim C1 (code bug): at the failing input the second `all` condition is
unsatisfied, yet `Rule.Evaluate` reports the rule satisfied and
`Engine.Evaluate` emits its event with no error — `evaluateConditions`
returns satisfied as soon as ONE condition of the `all` group is
satisfied, contradicting the all-must-pass semantics the README documents
and the claim states. -/
theorem c1_all_group_short_circuit_bug :
    Condition.evaluate .ignore (.mk "b" "equal" (.int 2) [] []) c1Fact
        = .ok (false, [], [])
    ∧ Condition.evaluate .ignore (.mk "a" "equal" (.int 1) [] []) c1Fact
        = .ok (true, ["a"], [.int 1])
    ∧ Rule.evaluate .ignore c1Rule c1Fact false = .ok (true, c1Rule)
    ∧ ((c1Engine.evaluate c1Fact).2.1).map Event.eventType = ["E"]
    ∧ (c1Engine.evaluate c1Fact).2.2 = [] := by
  exact ⟨by decide, by decide, by decide, by decide, by decide⟩

/-- The C3 failing input: a rule referencing the same fact name `f` in two
leaves, so that `addToIndex` registers it twice in the `f` bucket. -/
def c3Rule : Rule :=
  { name := "R", priority := 1,
    conditions :=
      { all := some [.mk "f" "equal" (.int 1) [] [], .mk "f" "equal" (.int 2) [] []],
        any := none },
    event := { eventType := "E", customProperty := .str "",
               facts := [], values := [], ruleName := "" } }

/-- The engine of the C3 failing input, holding only `c3Rule`. -/
def c3Engine : Engine := (addRule newEngine c3Rule).1

/-- Claim C3 (code bug): after adding a rule that references fact `f` in
two leaves (two entries in the `f` bucket), a successful `RemoveRule`
deletes the table entry but — because `removeFromIndex` breaks after the
first match per bucket — leaves one stale entry in the `f` bucket; the
second `RemoveRule` fails with the rule-does-not-exist error, as the claim
states. -/
theorem c3_remove_rule_stale_entry :
    (c3Engine.ruleIndex "f").map Rule.name = ["R", "R"]
    ∧ (removeRule c3Engine "R").2 = none
    ∧ (removeRule c3Engine "R").1.rules "R" = none
    ∧ ((removeRule c3Engine "R").1.ruleIndex "f").map Rule.name = ["R"]
    ∧ (removeRule (removeRule c3Engine "R").1 "R").2
        = some (.ruleDoesNotExist "R") := by
  exact ⟨by decide, by decide, by decide, by decide, by decide⟩

/-- The C9 demonstration rule: one `equal` leaf on `TestFact`, event
template with empty `facts`/`values`. -/
def c9Rule : Rule :=
  { name := "R", priority := 1,
    conditions := { all := some [.mk "TestFact" "equal" (.str "value") [] []],
                    any := none },
    event := { eventType := "E", customProperty := .str "",
               facts := [], values := [], ruleName := "" } }

/-- The C9 demonstration engine: `c9Rule` added, fact reporting and rule
name reporting enabled. -/
def c9Engine : Engine :=
  { (addRule newEngine c9Rule).1 with reportFacts := true, reportRuleName := true }

/-- The C9 demonstration fact. -/
def c9Fact : Fact := [("TestFact", .str "value")]

/-- Claim C8: every failing `AddRule` leaves the engine unchanged, and each
failure yields its distinguishing error: empty name, nil conditions (both
slices nil), invalid operator, and duplicate name (with the original rule
retained and the index untouched). -/
theorem c8_addrule_validation (e : Engine) (r R : Rule) :
    ((addRule e r).2.isSome → (addRule e r).1 = e)
    ∧ (r.name = "" → addRule e r = (e, some .emptyRuleName))
    ∧ (r.name ≠ "" → r.conditions.all = none → r.conditions.any = none →
        addRule e r = (e, some (.nilRuleConditions r.name)))
    ∧ (∀ op, r.name ≠ "" → ¬ (r.conditions.all = none ∧ r.conditions.any = none) →
        r.validate = some op → addRule e r = (e, some (.invalidOperator op)))
    ∧ (validateRule r = none → e.rules r.name = some R →
        addRule e r = (e, some (.ruleAlreadyExists r.name))
        ∧ (addRule e r).1.rules r.name = some R
        ∧ (∀ k, (addRule e r).1.ruleIndex k = e.ruleIndex k)) := by
  refine ⟨?_, ?_, ?_, ?_, ?_⟩
  · intro hs
    unfold addRule at hs ⊢
    rcases h : validateRule r with _ | err
    · by_cases hex : ruleExists e r.name
      · simp [hex]
      · simp [h, hex] at hs
    · simp
  · intro hname
    simp [addRule, validateRule, hname]
  · intro hname hall hany
    simp [addRule, validateRule, hname, hall, hany]
  · intro op hname hnil hval
    have : validateRule r = some (.invalidOperator op) := by
      rcases Decidable.not_and_iff_or_not.mp hnil with h | h <;>
        simp [validateRule, hname, hval, h]
    simp [addRule, this]
  · intro hval hex
    have hex' : ruleExists e r.name := by simp [ruleExists, hex]
    refine ⟨by simp [addRule, hval, hex'], ?_, fun k => ?_⟩
    · simp [addRule, hval, hex', hex]
    · simp [addRule, hval, hex']

/-- Witness for C8 at concrete inputs: a duplicate-name rule is rejected
(original retained, index untouched), and an empty-name rule is rejected
with the empty-name error. -/
theorem c8_addrule_validation_witness :
    (addRule c9Engine c3Rule = (c9Engine, some (.ruleAlreadyExists "R"))
      ∧ (addRule c9Engine c3Rule).1.rules "R" = some c9Rule
      ∧ (∀ k, (addRule c9Engine c3Rule).1.ruleIndex k = c9Engine.ruleIndex k))
    ∧ addRule c9Engine { c3Rule with name := "" }
        = (c9Engine, some .emptyRuleName) := by
  constructor
  · exact (c8_addrule_validation c9Engine c3Rule c9Rule).2.2.2.2
      (by decide) (by decide)
  · exact ((c8_addrule_validation c9Engine { c3Rule with name := "" } c9Rule).2.1)
      (by decide)

/-- `almostEqual` holds exactly when the absolute difference is within
`epsilon`, or within `epsilon` of the larger operand magnitude. -/
theorem almostEqual_eq_true_iff (a b : ℚ) :
    almostEqual a b = true ↔ (|a - b| ≤ epsilon ∨ |a - b| ≤ epsilon * max |a| |b|) := by
  unfold almostEqual
  by_cases h : |a - b| ≤ epsilon
  · simp [h]
  · simp [h]

/-- Leaf evaluation with `greaterThan` on coercible operands: satisfied
exactly when the fact value exceeds the literal by more than the absolute
`epsilon`. -/
theorem evaluate_leaf_gt (pol : UnmatchedPolicy) (fa : String) (v0 v1 : Value)
    (f : Fact) (a b : ℚ) (hfa : fa ≠ "") (hlk : factLookup f fa = some v0)
    (hca : convertToFloat64 v0 = some a) (hcb : convertToFloat64 v1 = some b) :
    Condition.evaluate pol (.mk fa "greaterThan" v1 [] []) f
      = if a > b + epsilon then .ok (true, [fa], [v0]) else .ok (false, [], []) := by
  simp [Condition.evaluate_leaf, evaluateSimpleCondition, validOperators, hfa,
    hlk, hca, hcb]

/-- Leaf evaluation with `greaterThanOrEqual` on coercible operands:
satisfied exactly when the operands are `almostEqual` or the fact value
exceeds the literal. -/
theorem evaluate_leaf_ge (pol : UnmatchedPolicy) (fa : String) (v0 v1 : Value)
    (f : Fact) (a b : ℚ) (hfa : fa ≠ "") (hlk : factLookup f fa = some v0)
    (hca : convertToFloat64 v0 = some a) (hcb : convertToFloat64 v1 = some b) :
    Condition.evaluate pol (.mk fa "greaterThanOrEqual" v1 [] []) f
      = if almostEqual a b || a > b then .ok (true, [fa], [v0])
        else .ok (false, [], []) := by
  simp [Condition.evaluate_leaf, evaluateSimpleCondition, validOperators, hfa,
    hlk, hca, hcb]

/-- Leaf evaluation with `lessThan` on coercible operands: satisfied
exactly when the fact value is below the literal by more than the absolute
`epsilon`. -/
theorem evaluate_leaf_lt (pol : UnmatchedPolicy) (fa : String) (v0 v1 : Value)
    (f : Fact) (a b : ℚ) (hfa : fa ≠ "") (hlk : factLookup f fa = some v0)
    (hca : convertToFloat64 v0 = some a) (hcb : convertToFloat64 v1 = some b) :
    Condition.evaluate pol (.mk fa "lessThan" v1 [] []) f
      = if a < b - epsilon then .ok (true, [fa], [v0]) else .ok (false, [], []) := by
  simp [Condition.evaluate_leaf, evaluateSimpleCondition, validOperators, hfa,
    hlk, hca, hcb]

/-- Leaf evaluation with `lessThanOrEqual` on coercible operands: satisfied
exactly when the operands are `almostEqual` or the fact value is below the
literal. -/
theorem evaluate_leaf_le (pol : UnmatchedPolicy) (fa : String) (v0 v1 : Value)
    (f : Fact) (a b : ℚ) (hfa : fa ≠ "") (hlk : factLookup f fa = some v0)
    (hca : convertToFloat64 v0 = some a) (hcb : convertToFloat64 v1 = some b) :
    Condition.evaluate pol (.mk fa "lessThanOrEqual" v1 [] []) f
      = if almostEqual a b || a < b then .ok (true, [fa], [v0])
        else .ok (false, [], []) := by
  simp [Condition.evaluate_leaf, evaluateSimpleCondition, validOperators, hfa,
    hlk, hca, hcb]

/-- Counterexample to C7 as stated: the operands 3000000000 and 2999999999
differ by 1, which is inside the relative tolerance band
`epsilon * max |a| |b| = 3` (indeed `almostEqual` holds, so
`greaterThanOrEqual` would treat them as equal), and yet `greaterThan` IS
satisfied — the strict comparisons use the absolute band `epsilon`, not
the relative one, so they do not require the difference to exceed the
relative tolerance band. -/
theorem c7_relative_band_counterexample :
    almostEqual ((3000000000 : Int) : ℚ) ((2999999999 : Int) : ℚ) = true
    ∧ |((3000000000 : Int) : ℚ) - ((2999999999 : Int) : ℚ)|
        ≤ epsilon * max |((3000000000 : Int) : ℚ)| |((2999999999 : Int) : ℚ)|
    ∧ Condition.evaluate .ignore (.mk "t" "greaterThan" (.int 2999999999) [] [])
        [("t", .int 3000000000)] = .ok (true, ["t"], [.int 3000000000]) := by
  have hband : |((3000000000 : Int) : ℚ) - ((2999999999 : Int) : ℚ)|
      ≤ epsilon * max |((3000000000 : Int) : ℚ)| |((2999999999 : Int) : ℚ)| := by
    push_cast
    rw [show ((3000000000 : ℚ) - 2999999999) = 1 by norm_num]
    rw [show |(1 : ℚ)| = 1 by norm_num]
    rw [show |(3000000000 : ℚ)| = 3000000000 by rw [abs_of_nonneg]; norm_num]
    rw [show |(2999999999 : ℚ)| = 2999999999 by rw [abs_of_nonneg]; norm_num]
    rw [max_eq_left (by norm_num : (2999999999 : ℚ) ≤ 3000000000)]
    norm_num [epsilon]
  refine ⟨?_, hband, ?_⟩
  · exact (almostEqual_eq_true_iff _ _).mpr (Or.inr hband)
  · rw [evaluate_leaf_gt .ignore "t" (.int 3000000000) (.int 2999999999)
      [("t", .int 3000000000)] ((3000000000 : Int) : ℚ) ((2999999999 : Int) : ℚ)
      (by decide) rfl rfl rfl]
    rw [if_pos]
    push_cast
    norm_num [epsilon]

/-- Claim C7 (amended): `greaterThanOrEqual`/`lessThanOrEqual` treat
operands as equal when their difference is within the absolute `epsilon`
of 1e-9 OR within `epsilon` relative to the larger operand magnitude,
while the strict comparisons use the absolute band only: `greaterThan` is
satisfied exactly when the fact value exceeds the literal by more than
`epsilon`, `lessThan` symmetrically.  In particular `greaterThanOrEqual`
with fact value 30.0000000001 and literal 30 is satisfied and
`greaterThan` with the same operands is not. -/
theorem c7_epsilon_semantics (pol : UnmatchedPolicy) (fa : String) (f : Fact)
    (a b : ℚ) (hfa : fa ≠ "") (hlk : factLookup f fa = some (.float a)) :
    ((|a - b| ≤ epsilon ∨ |a - b| ≤ epsilon * max |a| |b|) →
      Condition.evaluate pol (.mk fa "greaterThanOrEqual" (.float b) [] []) f
          = .ok (true, [fa], [.float a])
      ∧ Condition.evaluate pol (.mk fa "lessThanOrEqual" (.float b) [] []) f
          = .ok (true, [fa], [.float a]))
    ∧ (Condition.evaluate pol (.mk fa "greaterThan" (.float b) [] []) f
          = .ok (true, [fa], [.float a]) ↔ a > b + epsilon)
    ∧ (Condition.evaluate pol (.mk fa "lessThan" (.float b) [] []) f
          = .ok (true, [fa], [.float a]) ↔ a < b - epsilon)
    ∧ Condition.evaluate .ignore
        (.mk "t" "greaterThanOrEqual" (.int 30) [] [])
        [("t", .float (300000000001/10000000000))]
        = .ok (true, ["t"], [.float (300000000001/10000000000)])
    ∧ Condition.evaluate .ignore
        (.mk "t" "greaterThan" (.int 30) [] [])
        [("t", .float (300000000001/10000000000))]
        = .ok (false, [], []) := by
  refine ⟨?_, ?_, ?_, ?_, ?_⟩
  · intro hnear
    have hae : almostEqual a b = true := (almostEqual_eq_true_iff a b).mpr hnear
    constructor
    · rw [evaluate_leaf_ge pol fa (.float a) (.float b) f a b hfa hlk rfl rfl]
      simp [hae]
    · rw [evaluate_leaf_le pol fa (.float a) (.float b) f a b hfa hlk rfl rfl]
      simp [hae]
  · rw [evaluate_leaf_gt pol fa (.float a) (.float b) f a b hfa hlk rfl rfl]
    by_cases h : a > b + epsilon
    · simp [h]
    · simp [h]
  · rw [evaluate_leaf_lt pol fa (.float a) (.float b) f a b hfa hlk rfl rfl]
    by_cases h : a < b - epsilon
    · simp [h]
    · simp [h]
  · rw [evaluate_leaf_ge .ignore "t" (.float (300000000001/10000000000)) (.int 30)
      [("t", .float (300000000001/10000000000))] (300000000001/10000000000)
      ((30 : Int) : ℚ) (by decide) rfl rfl rfl]
    rw [if_pos]
    apply Bool.or_eq_true_iff.mpr
    right
    push_cast
    norm_num
  · rw [evaluate_leaf_gt .ignore "t" (.float (300000000001/10000000000)) (.int 30)
      [("t", .float (300000000001/10000000000))] (300000000001/10000000000)
      ((30 : Int) : ℚ) (by decide) rfl rfl rfl]
    rw [if_neg]
    push_cast
    norm_num [epsilon]

/-- Witness for C7 (amended) at concrete inputs: equal operands (a = b =
30) make `greaterThanOrEqual` and `lessThanOrEqual` satisfied, and
`greaterThan` with fact 31 and literal 30 is satisfied since the
difference 1 exceeds the absolute epsilon. -/
theorem c7_epsilon_semantics_witness :
    (Condition.evaluate .ignore (.mk "t" "greaterThanOrEqual" (.float 30) [] [])
        [("t", .float 30)] = .ok (true, ["t"], [.float 30])
      ∧ Condition.evaluate .ignore (.mk "t" "lessThanOrEqual" (.float 30) [] [])
        [("t", .float 30)] = .ok (true, ["t"], [.float 30]))
    ∧ (Condition.evaluate .ignore (.mk "t" "greaterThan" (.float 30) [] [])
        [("t", .float 31)] = .ok (true, ["t"], [.float 31])) := by
  constructor
  · exact (c7_epsilon_semantics .ignore "t" [("t", .float 30)] 30 30
      (by decide) rfl).1 (Or.inl (by norm_num [epsilon]))
  · exact ((c7_epsilon_semantics .ignore "t" [("t", .float 31)] 31 30
      (by decide) rfl).2.1).mpr (by norm_num [epsilon])

/-- The C5 counterexample rule: its first leaf has an uncoercible numeric
literal, so its evaluation errors; its two leaves are on distinct facts
`a` and `b`, so the rule is reachable through both. -/
def c5Rule : Rule :=
  { name := "Rerr", priority := 1,
    conditions :=
      { all := some [.mk "a" "greaterThan" (.str "x") [] [],
                     .mk "b" "equal" (.int 1) [] []],
        any := none },
    event := { eventType := "E", customProperty := .str "",
               facts := [], values := [], ruleName := "" } }

/-- The engine of the C5 counterexample, holding only `c5Rule`. -/
def c5Engine : Engine := (addRule newEngine c5Rule).1

/-- The C5 counterexample fact, containing both fact names of `c5Rule`. -/
def c5Fact : Fact := [("a", .int 1), ("b", .int 1)]

/-- Counterexample to C5 as stated: a rule reachable through two fact
names of the input whose evaluation returns an error is invoked TWICE in
one `Engine.Evaluate` call — the error path `continue`s without marking
the rule as evaluated, so the second occurrence in the candidate list
invokes it again and its error is collected twice.  (No event is emitted.) -/
theorem c5_error_reinvocation_counterexample :
    ((c5Engine.evaluateTrace c5Fact).map (fun p => p.1.name)) = ["Rerr", "Rerr"]
    ∧ (c5Engine.evaluate c5Fact).2.2
        = [.conditionValueCoercion (.str "x"), .conditionValueCoercion (.str "x")]
    ∧ (c5Engine.evaluate c5Fact).2.1 = [] := by
  exact ⟨by decide, by decide, by decide⟩

/-- Claim C5 (amended): a candidate rule whose evaluation does NOT return
an error is invoked exactly once per `Engine.Evaluate` call, however many
times it occurs in the candidate list (reachable through several fact
names or several leaves); and in all cases (errors included) at most one
event per rule name is emitted, the events being exactly those recorded in
the invocation trace. -/
theorem c5_dedup_invoked_once (e : Engine) (f : Fact) (r rc : Rule) (sat : Bool)
    (hmem : r ∈ matchingRules e f)
    (hinj : ∀ r2 ∈ matchingRules e f, r2.name = r.name → r2 = r)
    (hEval : Rule.evaluate e.unmatchedFactBehavior r f e.reportFacts = .ok (sat, rc)) :
    ((e.evaluateTrace f).filter (fun p => p.1.name = r.name)).length = 1
    ∧ (∀ n : String, ((e.evaluateTrace f).filter
        (fun p => decide (p.1.name = n) && p.2.isSome)).length ≤ 1)
    ∧ (e.evaluate f).2.1 = (e.evaluateTrace f).filterMap (fun p => p.2) := by
  refine ⟨?_, ?_, ?_⟩
  · exact evalLoop_invoked_once e.unmatchedFactBehavior e.reportFacts
      e.reportRuleName f (matchingRules e f) initialLoopState r rc sat hmem hinj
      hEval (by simp [initialLoopState]) (by simp [initialLoopState])
  · intro n
    exact evalLoop_emit_le_one e.unmatchedFactBehavior e.reportFacts
      e.reportRuleName f (matchingRules e f) n initialLoopState
      (by simp [initialLoopState]) (fun _ => by simp [initialLoopState])
  · exact evalLoop_events_eq_trace e.unmatchedFactBehavior e.reportFacts
      e.reportRuleName f (matchingRules e f) initialLoopState
      (by simp [initialLoopState])

/-- The C5 witness rule: two leaves on distinct facts, both satisfied, no
errors. -/
def c5OkRule : Rule :=
  { name := "Rok", priority := 1,
    conditions :=
      { all := some [.mk "a" "equal" (.int 1) [] [],
                     .mk "b" "equal" (.int 1) [] []],
        any := none },
    event := { eventType := "E", customProperty := .str "",
               facts := [], values := [], ruleName := "" } }

/-- The engine of the C5 witness, holding only `c5OkRule`. -/
def c5OkEngine : Engine := (addRule newEngine c5OkRule).1

/-- Witness for C5 (amended) at a concrete input: the rule occurs twice in
the candidate list (buckets `a` and `b`) yet is invoked once. -/
theorem c5_dedup_invoked_once_witness :
    (matchingRules c5OkEngine c5Fact).length = 2
    ∧ ((c5OkEngine.evaluateTrace c5Fact).filter
        (fun p => p.1.name = "Rok")).length = 1
    ∧ (∀ n : String, ((c5OkEngine.evaluateTrace c5Fact).filter
        (fun p => decide (p.1.name = n) && p.2.isSome)).length ≤ 1) := by
  have h := c5_dedup_invoked_once c5OkEngine c5Fact c5OkRule c5OkRule true
    (by decide) (by decide) (by decide)
  exact ⟨by decide, h.1, h.2.1⟩

/-- Claim C6: for a leaf with a numeric operator, a coercion failure on
either operand makes that rule's evaluation fail with a hard error (never
a quiet false), and `Engine.Evaluate` still returns the events of every
candidate whose evaluation succeeded, alongside the collected errors (the
aggregated multi-error is non-nil exactly when the error list is
non-empty). -/
theorem c6_coercion_error_aggregation (pol : UnmatchedPolicy) (fa op : String)
    (v0 v1 : Value) (f : Fact) (e : Engine) (rOk rcOk rErr : Rule) (err : EvalError)
    (hop : op = "greaterThan" ∨ op = "greaterThanOrEqual" ∨
      op = "lessThan" ∨ op = "lessThanOrEqual")
    (hfa : fa ≠ "") (hlk : factLookup f fa = some v0) :
    ((convertToFloat64 v0 = none →
        Condition.evaluate pol (.mk fa op v1 [] []) f
          = .error (.factValueCoercion v0))
      ∧ (∀ a, convertToFloat64 v0 = some a → convertToFloat64 v1 = none →
        Condition.evaluate pol (.mk fa op v1 [] []) f
          = .error (.conditionValueCoercion v1)))
    ∧ (rErr ∈ matchingRules e f →
        (∀ r2 ∈ matchingRules e f, r2.name = rErr.name → r2 = rErr) →
        Rule.evaluate e.unmatchedFactBehavior rErr f e.reportFacts = .error err →
        err ∈ (e.evaluate f).2.2)
    ∧ (rOk ∈ matchingRules e f →
        (∀ r2 ∈ matchingRules e f, r2.name = rOk.name → r2 = rOk) →
        Rule.evaluate e.unmatchedFactBehavior rOk f e.reportFacts = .ok (true, rcOk) →
        stampEvent e.reportRuleName rcOk ∈ (e.evaluate f).2.1) := by
  refine ⟨⟨?_, ?_⟩, ?_, ?_⟩
  · intro hc0
    rcases hop with h | h | h | h <;> subst h <;>
      simp [Condition.evaluate_leaf, evaluateSimpleCondition, validOperators,
        hfa, hlk, hc0]
  · intro a hc0 hc1
    rcases hop with h | h | h | h <;> subst h <;>
      simp [Condition.evaluate_leaf, evaluateSimpleCondition, validOperators,
        hfa, hlk, hc0, hc1]
  · intro hmem hinj hEval
    have := evalLoop_mem_errs e.unmatchedFactBehavior e.reportFacts
      e.reportRuleName f (matchingRules e f) initialLoopState rErr err hmem hinj
      hEval (by simp [initialLoopState])
    simpa [Engine.evaluate] using this
  · intro hmem hinj hEval
    have := evalLoop_mem_events e.unmatchedFactBehavior e.reportFacts
      e.reportRuleName f (matchingRules e f) initialLoopState rOk rcOk hmem hinj
      hEval (by simp [initialLoopState])
    simpa [Engine.evaluate] using this

/-- The C6 witness engine: `c5Rule` (coercion error) and a healthy rule on
fact `a`, both candidates for `c5Fact`. -/
def c6Engine : Engine :=
  (addRule (addRule newEngine c5Rule).1
    { name := "Rok", priority := 2,
      conditions := { all := some [.mk "a" "equal" (.int 1) [] []], any := none },
      event := { eventType := "OK", customProperty := .str "",
                 facts := [], values := [], ruleName := "" } }).1

/-- Witness for C6 at concrete inputs: the uncoercible leaf errors with
the condition-value coercion error, that error is collected, and the
healthy rule's event is still emitted. -/
theorem c6_coercion_error_aggregation_witness :
    Condition.evaluate .ignore (.mk "a" "greaterThan" (.str "x") [] []) c5Fact
        = .error (.conditionValueCoercion (.str "x"))
    ∧ EvalError.conditionValueCoercion (.str "x") ∈ (c6Engine.evaluate c5Fact).2.2
    ∧ stampEvent false
        { name := "Rok", priority := 2,
          conditions := { all := some [.mk "a" "equal" (.int 1) [] []], any := none },
          event := { eventType := "OK", customProperty := .str "",
                     facts := [], values := [], ruleName := "" } }
        ∈ (c6Engine.evaluate c5Fact).2.1 := by
  have h := c6_coercion_error_aggregation .ignore "a" "greaterThan"
    (.int 1) (.str "x") c5Fact c6Engine
    { name := "Rok", priority := 2,
      conditions := { all := some [.mk "a" "equal" (.int 1) [] []], any := none },
      event := { eventType := "OK", customProperty := .str "",
                 facts := [], values := [], ruleName := "" } }
    { name := "Rok", priority := 2,
      conditions := { all := some [.mk "a" "equal" (.int 1) [] []], any := none },
      event := { eventType := "OK", customProperty := .str "",
                 facts := [], values := [], ruleName := "" } }
    c5Rule (.conditionValueCoercion (.str "x"))
    (Or.inl rfl) (by decide) (by decide)
  exact ⟨h.1.2 ((1 : Int) : ℚ) (by decide) (by decide),
    h.2.1 (by decide) (by decide) (by decide),
    h.2.2 (by decide) (by decide) (by decide)⟩

/-! ## Sortedness of the rule index (for C4) -/

/-- Every bucket of the rule index is sorted by ascending priority. -/
def SortedIndex (e : Engine) : Prop :=
  ∀ k, List.Sorted (fun a b : Rule => a.priority ≤ b.priority) (e.ruleIndex k)

/-- One-step unfolding of the `sort.Search` loop. -/
theorem sortSearchAux_succ (f : Nat → Bool) (fuel i j : Nat) :
    sortSearchAux f (fuel + 1) i j
      = if i < j then
          (if f ((i + j) / 2) then sortSearchAux f fuel i ((i + j) / 2)
           else sortSearchAux f fuel ((i + j) / 2 + 1) j)
        else i := rfl

/-- Specification of the `sort.Search` loop: for a predicate that is upward
closed below `n`, the search over `[i, j)` (with the stated invariants)
returns the least index at which the predicate holds, or the upper end. -/
theorem sortSearchAux_spec (f : Nat → Bool) (n : Nat)
    (hup : ∀ x y, x ≤ y → y < n → f x = true → f y = true) :
    ∀ fuel i j, i ≤ j → j ≤ n → j - i ≤ fuel →
      (∀ m, m < i → f m = false) →
      (∀ m, j ≤ m → m < n → f m = true) →
      i ≤ sortSearchAux f fuel i j ∧ sortSearchAux f fuel i j ≤ j ∧
      (∀ m, m < sortSearchAux f fuel i j → f m = false) ∧
      (∀ m, sortSearchAux f fuel i j ≤ m → m < n → f m = true) := by
  intro fuel
  induction fuel with
  | zero =>
    intro i j hij hjn hfuel hlo hhi
    have hij' : i = j := by omega
    subst hij'
    exact ⟨le_refl _, le_refl _, hlo, hhi⟩
  | succ fuel ih =>
    intro i j hij hjn hfuel hlo hhi
    rw [sortSearchAux_succ]
    by_cases hij2 : i < j
    · rw [if_pos hij2]
      by_cases hfm : f ((i + j) / 2) = true
      · rw [if_pos hfm]
        have hm1 : i ≤ (i + j) / 2 := by omega
        have hm2 : (i + j) / 2 < j := by omega
        obtain ⟨h1, h2, h3, h4⟩ := ih i ((i + j) / 2) hm1 (by omega) (by omega) hlo
          (fun m hm hmn => hup ((i + j) / 2) m hm hmn hfm)
        exact ⟨h1, by omega, h3, h4⟩
      · rw [if_neg hfm]
        have hm2 : (i + j) / 2 < j := by omega
        obtain ⟨h1, h2, h3, h4⟩ := ih ((i + j) / 2 + 1) j (by omega) hjn (by omega)
          (fun m hm => by
            by_cases hmt : f m = true
            · exact absurd (hup m ((i + j) / 2) (by omega) (by omega) hmt) hfm
            · simpa using hmt)
          hhi
        exact ⟨by omega, h2, h3, h4⟩
    · rw [if_neg hij2]
      have hij' : i = j := by omega
      subst hij'
      exact ⟨le_refl _, le_refl _, hlo, hhi⟩

/-- `insertRuleIntoIndex` keeps every bucket sorted by ascending priority:
the binary search finds the first entry with strictly greater priority and
the rule is spliced in just before it. -/
theorem insertRuleIntoIndex_sorted (e : Engine) (k : String) (r : Rule)
    (h : SortedIndex e) : SortedIndex (insertRuleIntoIndex e k r) := by
  intro k2
  show List.Sorted _ (if k2 = k then _ else e.ruleIndex k2)
  by_cases hk : k2 = k
  swap
  · rw [if_neg hk]
    exact h k2
  rw [if_pos hk]
  set l := e.ruleIndex k with hl
  have hsl : List.Sorted (fun a b : Rule => a.priority ≤ b.priority) l := h k
  set fpred := fun i =>
    match l.get? i with
    | some ru => decide (ru.priority > r.priority)
    | none => false with hfpred
  have hup : ∀ x y, x ≤ y → y < l.length → fpred x = true → fpred y = true := by
    intro x y hxy hyl hx
    have hxl : x < l.length := by omega
    rw [hfpred] at hx ⊢
    simp only [List.get?_eq_getElem?, List.getElem?_eq_getElem hxl,
      decide_eq_true_eq] at hx
    simp only [List.get?_eq_getElem?, List.getElem?_eq_getElem hyl,
      decide_eq_true_eq]
    rcases Nat.lt_or_ge x y with hlt | hge
    · have := hsl.rel_get_of_lt (a := ⟨x, hxl⟩) (b := ⟨y, hyl⟩) hlt
      simp only [List.get_eq_getElem] at this
      omega
    · have hxy' : x = y := by omega
      subst hxy'
      exact hx
  have hspec := sortSearchAux_spec fpred l.length hup
    l.length 0 l.length (Nat.zero_le _) (le_refl _) (by omega)
    (fun m hm => absurd hm (Nat.not_lt_zero m))
    (fun m hm hmn => absurd hmn (by omega))
  rw [show sortSearchAux fpred l.length 0 l.length = sortSearch l.length fpred
    from rfl] at hspec
  obtain ⟨-, hle, hlow, hhigh⟩ := hspec
  set idx := sortSearch l.length fpred with hidx
  have hlow' : ∀ m (hm : m < l.length), m < idx → (l[m]).priority ≤ r.priority := by
    intro m hm hmidx
    have hf := hlow m hmidx
    rw [hfpred] at hf
    simp only [List.get?_eq_getElem?, List.getElem?_eq_getElem hm,
      decide_eq_false_iff_not] at hf
    omega
  have hhigh' : ∀ m (hm : m < l.length), idx ≤ m → r.priority < (l[m]).priority := by
    intro m hm hmidx
    have hf := hhigh m hmidx hm
    rw [hfpred] at hf
    simp only [List.get?_eq_getElem?, List.getElem?_eq_getElem hm,
      decide_eq_true_eq] at hf
    omega
  have hlt : (l.take idx).length = idx := by
    rw [List.length_take]
    exact min_eq_left hle
  have hld : (l.drop idx).length = l.length - idx := List.length_drop idx l
  rw [List.Sorted, List.pairwise_append]
  refine ⟨List.Pairwise.sublist (List.take_sublist idx l) hsl, ?_, ?_⟩
  · rw [List.pairwise_cons]
    refine ⟨?_, List.Pairwise.sublist (List.drop_sublist idx l) hsl⟩
    intro y hy
    obtain ⟨j, hj, rfl⟩ := List.mem_iff_getElem.mp hy
    rw [List.getElem_drop]
    have hjl : idx + j < l.length := by omega
    exact le_of_lt (hhigh' (idx + j) hjl (by omega))
  · intro x hx y hy
    obtain ⟨m, hm, rfl⟩ := List.mem_iff_getElem.mp hx
    have hml : m < l.length := by omega
    have hmidx : m < idx := by omega
    rw [List.getElem_take]
    have hxle : (l[m]).priority ≤ r.priority := hlow' m hml hmidx
    rcases List.mem_cons.mp hy with rfl | hy2
    · exact hxle
    · obtain ⟨j, hj, rfl⟩ := List.mem_iff_getElem.mp hy2
      rw [List.getElem_drop]
      have hjl : idx + j < l.length := by omega
      have := hhigh' (idx + j) hjl (by omega)
      omega

/-- Fuel-indexed induction for `processConditions`: indexing a rule under
every reachable condition keeps every bucket sorted. -/
theorem processConditions_sorted_fuel :
    ∀ (fuel : Nat) (cs : List Condition) (r : Rule) (e : Engine),
      sizeOf cs ≤ fuel → SortedIndex e → SortedIndex (processConditions cs r e) := by
  intro fuel
  induction fuel with
  | zero =>
    intro cs r e hcs h
    cases cs with
    | nil => rw [processConditions]; exact h
    | cons c rest =>
      simp only [List.cons.sizeOf_spec] at hcs
      omega
  | succ fuel ih =>
    intro cs r e hcs h
    cases cs with
    | nil => rw [processConditions]; exact h
    | cons c rest =>
      rcases c with ⟨fa, op, v, all, any⟩
      simp only [List.cons.sizeOf_spec, Condition.mk.sizeOf_spec] at hcs
      rw [processConditions]
      have hc : SortedIndex (processCondition (.mk fa op v all any) r e) := by
        rw [processCondition]
        have h1 : SortedIndex (insertRuleIntoIndex e fa r) :=
          insertRuleIntoIndex_sorted e fa r h
        by_cases ha : all.length > 0
        · by_cases hb : any.length > 0
          · simp only [ha, hb, if_true]
            exact ih any r _ (by omega) (ih all r _ (by omega) h1)
          · simp only [ha, hb, if_true, if_false]
            exact ih all r _ (by omega) h1
        · by_cases hb : any.length > 0
          · simp only [ha, hb, if_true, if_false]
            exact ih any r _ (by omega) h1
          · simp only [ha, hb, if_false]
            exact h1
      exact ih rest r _ (by omega) hc

/-- `processConditions` keeps every bucket of the index sorted. -/
theorem processConditions_sorted (cs : List Condition) (r : Rule) (e : Engine)
    (h : SortedIndex e) : SortedIndex (processConditions cs r e) :=
  processConditions_sorted_fuel (sizeOf cs) cs r e (le_refl _) h

/-- `addToIndex` keeps every bucket of the index sorted. -/
theorem addToIndex_sorted (e : Engine) (r : Rule) (h : SortedIndex e) :
    SortedIndex (addToIndex e r) :=
  processConditions_sorted _ _ _ (processConditions_sorted _ _ _ h)

/-- `AddRule` keeps every bucket of the index sorted. -/
theorem addRule_sorted (e : Engine) (r : Rule) (h : SortedIndex e) :
    SortedIndex (addRule e r).1 := by
  unfold addRule
  rcases hv : validateRule r with _ | err
  · by_cases hex : ruleExists e r.name
    · simpa [hex] using h
    · simp only [hex]
      simp only [if_false, Bool.false_eq_true]
      exact addToIndex_sorted _ r h
  · exact h

/-- The bucket after `removeFromIndex`'s inner loop is a sublist of the
original bucket. -/
theorem removeFirstByName_sublist (n : String) :
    ∀ l : List Rule, (removeFirstByName n l).Sublist l := by
  intro l
  induction l with
  | nil => rw [removeFirstByName]
  | cons r rest ih =>
    rw [removeFirstByName]
    by_cases h : r.name = n
    · rw [if_pos h]
      exact List.sublist_cons_self r rest
    · rw [if_neg h]
      exact ih.cons₂ r

/-- `removeFromIndex` keeps every bucket of the index sorted. -/
theorem removeFromIndex_sorted (e : Engine) (n : String) (h : SortedIndex e) :
    SortedIndex (removeFromIndex e n) :=
  fun k => List.Pairwise.sublist (removeFirstByName_sublist n (e.ruleIndex k)) (h k)

/-- `RemoveRule` keeps every bucket of the index sorted. -/
theorem removeRule_sorted (e : Engine) (n : String) (h : SortedIndex e) :
    SortedIndex (removeRule e n).1 := by
  unfold removeRule
  by_cases hex : (e.rules n).isNone
  · simpa [hex] using h
  · simp only [hex]
    simp only [if_false, Bool.false_eq_true]
    exact removeFromIndex_sorted _ n h

/-- `UpdateRule` keeps every bucket of the index sorted. -/
theorem updateRule_sorted (e : Engine) (n : String) (r : Rule) (h : SortedIndex e) :
    SortedIndex (updateRule e n r).1 := by
  unfold updateRule
  rcases hv : r.validate with _ | op
  · by_cases hex : (e.rules n).isNone
    · simpa [hex] using h
    · simp only [hex]
      simp only [if_false, Bool.false_eq_true]
      exact addToIndex_sorted _ r (removeFromIndex_sorted e n h)
  · exact h

/-- `NewEngine` has a sorted (empty) index. -/
theorem newEngine_sorted : SortedIndex newEngine :=
  fun _ => List.sorted_nil

/-- The C4 counterexample rules: priority 1 on fact `a`, priority 5 on
fact `b`. -/
def c4RuleLow : Rule :=
  { name := "Rlow", priority := 1,
    conditions := { all := some [.mk "a" "equal" (.int 1) [] []], any := none },
    event := { eventType := "EA", customProperty := .str "",
               facts := [], values := [], ruleName := "" } }

/-- See `c4RuleLow`. -/
def c4RuleHigh : Rule :=
  { name := "Rhigh", priority := 5,
    conditions := { all := some [.mk "b" "equal" (.int 1) [] []], any := none },
    event := { eventType := "EB", customProperty := .str "",
               facts := [], values := [], ruleName := "" } }

/-- The C4 counterexample engine: both rules added, rule-name reporting on. -/
def c4Engine : Engine :=
  { (addRule (addRule newEngine c4RuleLow).1 c4RuleHigh).1 with reportRuleName := true }

/-- The C4 counterexample fact: both fact names, iterated `b` before `a`. -/
def c4Fact : Fact := [("b", .int 1), ("a", .int 1)]

/-- Counterexample to C4 as stated: with the input fact's keys iterated
`b` before `a` (a possible Go map iteration order), the event of the
priority-5 rule precedes the event of the priority-1 rule — the returned
event list is not ordered with the lower priority number first, because
`Engine.Evaluate` concatenates per-fact-name buckets in map iteration
order and never sorts the combined candidate list. -/
theorem c4_priority_order_counterexample :
    ((c4Engine.evaluate c4Fact).2.1).map Event.ruleName = ["Rhigh", "Rlow"]
    ∧ (c4Engine.rules "Rhigh").map Rule.priority = some 5
    ∧ (c4Engine.rules "Rlow").map Rule.priority = some 1 := by
  exact ⟨by decide, by decide, by decide⟩

/-- Claim C4 (amended): each index bucket is kept sorted by ascending
priority (established by `NewEngine` and preserved by `AddRule`,
`RemoveRule` and `UpdateRule`), and the events of one `Engine.Evaluate`
call are emitted in candidate order — so whenever the input fact holds a
single fact name, the emitted events are ordered by priority with the
lower priority number first.  Across several fact names the order
follows the (unspecified) map iteration order of the input fact and need
not be globally sorted. -/
theorem c4_priority_order_per_bucket (e : Engine) (f : Fact) (k : String)
    (v : Value) (hsorted : SortedIndex e) (hf : f = [(k, v)]) :
    List.Sorted (· ≤ ·)
      (((e.evaluateTrace f).filter (fun p => p.2.isSome)).map
        (fun p => p.1.priority))
    ∧ (e.evaluate f).2.1 = (e.evaluateTrace f).filterMap (fun p => p.2)
    ∧ SortedIndex newEngine
    ∧ (∀ (e' : Engine) (r : Rule), SortedIndex e' → SortedIndex (addRule e' r).1)
    ∧ (∀ (e' : Engine) (n : String), SortedIndex e' →
        SortedIndex (removeRule e' n).1)
    ∧ (∀ (e' : Engine) (n : String) (r : Rule), SortedIndex e' →
        SortedIndex (updateRule e' n r).1) := by
  subst hf
  refine ⟨?_, ?_, newEngine_sorted,
    fun e' r h => addRule_sorted e' r h,
    fun e' n h => removeRule_sorted e' n h,
    fun e' n r h => updateRule_sorted e' n r h⟩
  · have hcands : matchingRules e [(k, v)] = e.ruleIndex k := by
      simp [matchingRules]
    obtain ⟨t, ht, hsub⟩ := evalLoop_trace_sublist e.unmatchedFactBehavior
      e.reportFacts e.reportRuleName [(k, v)] (matchingRules e [(k, v)])
      initialLoopState
    have htr : e.evaluateTrace [(k, v)] = t := by
      rw [Engine.evaluateTrace, ht]
      simp [initialLoopState]
    rw [htr]
    have hbucket : List.Pairwise (fun a b : Rule => a.priority ≤ b.priority)
        (matchingRules e [(k, v)]) := by
      rw [hcands]
      exact hsorted k
    have h1 : List.Pairwise (fun a b : Rule => a.priority ≤ b.priority)
        (t.map (fun p => p.1)) := List.Pairwise.sublist hsub hbucket
    have h2 : List.Pairwise
        (fun p q : Rule × Option Event => p.1.priority ≤ q.1.priority) t :=
      (List.pairwise_map (f := fun p : Rule × Option Event => p.1)).mp h1
    have h3 := h2.filter (fun p => p.2.isSome)
    exact List.pairwise_map.mpr h3
  · exact evalLoop_events_eq_trace e.unmatchedFactBehavior e.reportFacts
      e.reportRuleName [(k, v)] (matchingRules e [(k, v)]) initialLoopState
      (by simp [initialLoopState])

/-- A priority-5 rule on fact `a`, for the C4 witness bucket. -/
def c4RuleHighA : Rule :=
  { name := "RhighA", priority := 5,
    conditions := { all := some [.mk "a" "equal" (.int 1) [] []], any := none },
    event := { eventType := "EB2", customProperty := .str "",
               facts := [], values := [], ruleName := "" } }

/-- The C4 witness engine: two rules sharing fact `a`, added high-priority
first (the index orders them low first). -/
def c4WitnessEngine : Engine :=
  (addRule (addRule newEngine c4RuleHighA).1 c4RuleLow).1

/-- Witness for C4 (amended) at a concrete input: a single-fact-name input
over a bucket holding priorities 1 and 5. -/
theorem c4_priority_order_per_bucket_witness :
    List.Sorted (· ≤ ·)
      (((c4WitnessEngine.evaluateTrace [("a", .int 1)]).filter
        (fun p => p.2.isSome)).map (fun p => p.1.priority)) :=
  (c4_priority_order_per_bucket c4WitnessEngine [("a", .int 1)] "a" (.int 1)
    (addRule_sorted _ c4RuleLow (addRule_sorted _ c4RuleHighA newEngine_sorted))
    rfl).1

/-- The C9 counterexample fact: the same key–value pairs as `c4Fact`, in
the other iteration order (`a` before `b`).  Go does not guarantee the
same map iteration order from one range loop to the next, so one call of
`Engine.Evaluate` can see the keys in this order and the next call in
`c4Fact`'s order. -/
def c9SwapFact : Fact := [("a", .int 1), ("b", .int 1)]

/-- Counterexample to C9 as stated: two `Engine.Evaluate` calls on the
same fact (the same key–value pairs, presented in the two possible map
iteration orders) return DIFFERENT event lists — the events come out in
the order the input fact's keys are iterated, which Go does not fix
across calls.  The engine state is untouched by both calls, and the two
event lists hold the same events (they are permutations of each other):
only the claimed identity of the lists fails. -/
theorem c9_reordering_counterexample :
    c9SwapFact.Perm c4Fact
    ∧ ((c4Engine.evaluate c9SwapFact).2.1).map Event.ruleName = ["Rlow", "Rhigh"]
    ∧ ((c4Engine.evaluate c4Fact).2.1).map Event.ruleName = ["Rhigh", "Rlow"]
    ∧ (c4Engine.evaluate c9SwapFact).2.1 ≠ (c4Engine.evaluate c4Fact).2.1
    ∧ ((c4Engine.evaluate c9SwapFact).2.1).Perm ((c4Engine.evaluate c4Fact).2.1)
    ∧ (c4Engine.evaluate c9SwapFact).1 = c4Engine
    ∧ (c4Engine.evaluate c4Fact).1 = c4Engine := by
  exact ⟨by decide, by decide, by decide, by decide, by decide, rfl, rfl⟩

/-- Claim C9 (amended): `Engine.Evaluate` does not modify engine state —
for every input fact the engine after the call equals the engine before
it (evaluation operates on a private per-rule copy; the concrete
conjuncts show this is not vacuous with fact reporting enabled: the
emitted event's template was enriched with the triggering fact on the
copy, while the stored rule's template and the index bucket's copy still
have empty `facts` after the call) — and whenever the input fact holds a
SINGLE fact name, two consecutive calls with that fact return identical
events and errors.  For multi-key inputs the iteration order of the
input fact's keys may differ between calls, reordering — but not
changing the collection of — the returned events (see the
counterexample). -/
theorem c9_frame_single_key_determinism (e : Engine) (f : Fact) (k : String)
    (v : Value) (hf : f = [(k, v)]) :
    (∀ f' : Fact, (e.evaluate f').1 = e)
    ∧ ((e.evaluate f).1.evaluate f).2 = (e.evaluate f).2
    ∧ ((c9Engine.evaluate c9Fact).2.1).map Event.facts = [["TestFact"]]
    ∧ (c9Engine.rules "R").map (fun r => r.event.facts) = some []
    ∧ ((c9Engine.evaluate c9Fact).1.rules "R").map (fun r => r.event.facts) = some []
    ∧ ((c9Engine.evaluate c9Fact).1.ruleIndex "TestFact").map (fun r => r.event.facts)
        = [[]]
    ∧ (c9Engine.evaluate c9Fact).2.1 = ((c9Engine.evaluate c9Fact).1.evaluate c9Fact).2.1 := by
  subst hf
  exact ⟨fun _ => rfl, rfl, by decide, by decide, by decide, by decide, by decide⟩

/-- Witness for C9 (amended) at a concrete input: a single-fact-name fact
on the fact-reporting engine — the state is unchanged and the second call
returns the identical events and errors. -/
theorem c9_frame_single_key_determinism_witness :
    (c9Engine.evaluate c9Fact).1 = c9Engine
    ∧ ((c9Engine.evaluate c9Fact).1.evaluate c9Fact).2 = (c9Engine.evaluate c9Fact).2 :=
  ⟨(c9_frame_single_key_determinism c9Engine c9Fact "TestFact" (.str "value")
      rfl).1 c9Fact,
   (c9_frame_single_key_determinism c9Engine c9Fact "TestFact" (.str "value")
      rfl).2.1⟩

end Rulegopher
